import Mathlib

/-!
GoCloudComputingServers: session manager and sandboxed file store.

A shallow embedding of `server/auth.go` and `server/filemanager.go`.

* Go strings are modelled by Lean strings (sequences of code points); the
  library functions used by the source (`path/filepath`, `strings`, `fmt`,
  `sort`, `encoding/base64`) are modelled on character lists, following
  their Unix implementations.
* The operating system is a parameter: a record `OS σ` of the calls the
  file manager makes, over an arbitrary filesystem state `σ`.
* The clock, the random source and the credentials file are inputs of the
  operations that read them; so is the case table of package `unicode`,
  which `strings.ToLower` reads for the runes above ASCII.
* `sync.RWMutex` is part of the manager state; an acquisition that cannot be
  granted in a sequential run never returns (`Outcome.blocked`).
-/

namespace GoCloud

/-! ## Errors -/

/-- A Go `error` value: built by `errors.New`, returned by the operating
system or a library, or a run-time panic unwinding the call. -/
inductive Err where
  | new (msg : String)
  | os (msg : String)
  | panic (msg : String)
  deriving DecidableEq, Repr

/-! ## `strings` -/

/-- The Go function `strings.HasPrefix`. -/
def HasPrefix (s pre : String) : Bool :=
  pre.data.isPrefixOf s.data

/-- The Go function `strings.ContainsAny`. -/
def ContainsAny (s chars : String) : Bool :=
  s.data.any (fun c => chars.data.contains c)

/-- The Go function `unicode.ToLower`: an ASCII rune is lower-cased when it
is one of `A` to `Z` and returned as it is otherwise; a rune above ASCII is
looked up in the table `unicode.CaseRanges`. The table is not part of the
repository: it is the parameter `caseTable`, a function on the runes above
ASCII. -/
def toLowerRune (caseTable : Char → Char) (r : Char) : Char :=
  if r.val < 128 then
    (if 'A' ≤ r ∧ r ≤ 'Z' then Char.ofNat (r.toNat + 32) else r)
  else caseTable r

/-- The Go function `strings.ToLower` on a valid string: every rune is mapped
by `unicode.ToLower`. -/
def ToLower (caseTable : Char → Char) (s : String) : String :=
  String.mk (s.data.map (toLowerRune caseTable))

/-- Lexicographic comparison of character lists by code point. -/
def ltChars : List Char → List Char → Bool
  | _, [] => false
  | [], _ :: _ => true
  | a :: as, b :: bs => if a < b then true else if b < a then false else ltChars as bs

/-- The Go operator `<` on strings. -/
def strLess (a b : String) : Bool :=
  ltChars a.data b.data

/-! ## `path/filepath` (Unix) -/

/-- Split a character list at every `/`. -/
def splitSep : List Char → List (List Char)
  | [] => [[]]
  | c :: cs =>
    match splitSep cs with
    | [] => [[c]]
    | w :: ws => if c = '/' then [] :: w :: ws else (c :: w) :: ws

/-- One step of the element loop of `filepath.Clean`: `out` holds the
elements written so far, last one first. -/
def cleanStep (rooted : Bool) (out : List (List Char)) (e : List Char) : List (List Char) :=
  if e = [] ∨ e = ['.'] then out
  else if e = ['.', '.'] then
    match out with
    | [] => if rooted then [] else [e]
    | last :: rest => if last = ['.', '.'] then e :: out else rest
  else e :: out

/-- Join elements with `/`. -/
def joinSep : List (List Char) → List Char
  | [] => []
  | [e] => e
  | e :: es => e ++ '/' :: joinSep es

/-- The Go function `filepath.Clean` on a character list. -/
def cleanChars (path : List Char) : List Char :=
  if path = [] then ['.']
  else
    let rooted := path.head? = some '/'
    let out := ((splitSep path).foldl (cleanStep rooted) []).reverse
    if rooted then '/' :: joinSep out
    else if out = [] then ['.'] else joinSep out

/-- The Go function `filepath.Clean`. -/
def Clean (path : String) : String :=
  String.mk (cleanChars path.data)

/-- The Go function `filepath.IsAbs`. -/
def IsAbs (path : String) : Bool :=
  path.data.head? = some '/'

/-- The Go function `filepath.Join`: the elements from the first non-empty one
on are joined with `/` and cleaned; the result is empty when all are empty. -/
def Join : List String → String
  | [] => ""
  | e :: es =>
    if e = "" then Join es
    else String.mk (cleanChars (joinSep ((e :: es).map String.data)))

/-! ## `fmt` and `formatSize` -/

/-- Nearest integer to `num / den`, ties to even: the rounding
`strconv` applies to the exact value of a float when it drops digits. -/
def roundHalfEven (num den : Nat) : Nat :=
  let q := num / den
  let r := num % den
  if 2 * r < den then q
  else if den < 2 * r then q + 1
  else if q % 2 = 0 then q else q + 1

/-- The text `fmt.Sprintf("%.1f", float64(bytes)/float64(div))` for
`bytes < 2^53` and `div` a power of two, where both conversions and the
division are exact. -/
def sprintfF1 (bytes div : Nat) : String :=
  let t := roundHalfEven (10 * bytes) div
  toString (t / 10) ++ "." ++ toString (t % 10)

/-- The loop of `formatSize`: `for n := bytes / unit; n >= unit; n /= unit`. -/
def formatSizeLoop (n div exp : Nat) : Nat × Nat :=
  if h : 1024 ≤ n then formatSizeLoop (n / 1024) (div * 1024) (exp + 1)
  else (div, exp)
termination_by n
decreasing_by omega

/-- The function `formatSize` of `filemanager.go`; `none` is the run-time
panic of the index expression when `exp` is outside the unit list. -/
def formatSize (bytes : Int) : Option String :=
  if bytes < 1024 then some (toString bytes ++ " B")
  else
    let (div, exp) := formatSizeLoop (bytes.toNat / 1024) 1024 0
    match ["KB", "MB", "GB", "TB"].get? exp with
    | none => none
    | some u => some (sprintfF1 bytes.toNat div ++ " " ++ u)

/-! ## `sort` -/

/-- Insert `x` before the first element that is not below it. -/
def insertSorted {α : Type} (less : α → α → Bool) (x : α) : List α → List α
  | [] => [x]
  | y :: ys => if less y x then y :: insertSorted less x ys else x :: y :: ys

/-- The Go function `sort.Slice`, modelled by insertion sort. Go leaves the
relative order of elements that `less` does not separate unspecified. -/
def sortSlice {α : Type} (less : α → α → Bool) : List α → List α
  | [] => []
  | x :: xs => insertSorted less x (sortSlice less xs)

/-! ## The operating system -/

/-- What `os.Stat` reports and the file manager reads: `IsDir()`, `Size()`
and `ModTime().Format("2006-01-02")`. -/
structure FileInfo where
  isDir : Bool
  size : Int
  modTime : String
  deriving DecidableEq, Repr

/-- The operating-system calls of `filemanager.go` over a filesystem state
`σ`. Reads return a value or the error message; writes return the error, if
any, and the next state. -/
structure OS (σ : Type) where
  getwd : σ → Option String
  stat : σ → String → Except String FileInfo
  readDir : σ → String → Except String (List String)
  mkdirAll : σ → String → Option String × σ
  rename : σ → String → String → Option String × σ
  remove : σ → String → Option String × σ
  removeAll : σ → String → Option String × σ

/-- The Go function `filepath.Abs`; the result is empty when the path is
relative and `os.Getwd` fails (the callers drop the error). -/
def Abs (wd : Option String) (path : String) : String :=
  if IsAbs path then Clean path
  else match wd with
    | none => ""
    | some w => Join [w, path]

/-! ## The file manager -/

/-- The struct `FileItem` (`Typ` is its field `Type`). -/
structure FileItem where
  ID : String
  Name : String
  Typ : String
  Size : String
  Modified : String
  Path : String
  deriving DecidableEq, Repr

/-- The struct `FileManager`. -/
structure FileManager where
  baseDir : String
  deriving DecidableEq, Repr

/-- The function `NewFileManager`. -/
def NewFileManager (baseDir : String) : FileManager :=
  { baseDir := baseDir }

namespace FileManager

/-- The method `GetUserDir`. -/
def GetUserDir (fm : FileManager) (username : String) : String :=
  Join [fm.baseDir, username]

/-- The method `EnsureUserDir`. -/
def EnsureUserDir {σ : Type} (fm : FileManager) (os : OS σ) (s : σ) (username : String) :
    Option Err × σ :=
  let r := os.mkdirAll s (fm.GetUserDir username)
  (r.1.map Err.os, r.2)

/-- The path normalisation every method starts with: the directory the call
works in, or the error of the prefix check. -/
def resolveDir {σ : Type} (fm : FileManager) (os : OS σ) (s : σ) (username path : String) :
    Except Err String :=
  let userDir := fm.GetUserDir username
  if path = "" ∨ path = "root" ∨ path = "/" then .ok userDir
  else
    let path := if !IsAbs path then Join [userDir, path] else path
    let absUserDir := Abs (os.getwd s) userDir
    let absPath := Abs (os.getwd s) path
    if !HasPrefix absPath absUserDir then .error (.new "invalid path")
    else .ok path

/-- The comparison function `ListFiles` hands to `sort.Slice`. -/
def itemLess (caseTable : Char → Char) (a b : FileItem) : Bool :=
  if a.Typ ≠ b.Typ then a.Typ = "folder"
  else strLess (ToLower caseTable a.Name) (ToLower caseTable b.Name)

/-- The entry loop of `ListFiles`. -/
def listEntries {σ : Type} (os : OS σ) (s : σ) (path : String) :
    List String → Except Err (List FileItem)
  | [] => .ok []
  | name :: rest =>
    match os.stat s (Join [path, name]) with
    | .error _ => listEntries os s path rest
    | .ok info =>
      if info.isDir then
        match listEntries os s path rest with
        | .error e => .error e
        | .ok items =>
          .ok ({ ID := name, Name := name, Typ := "folder", Size := "",
                 Modified := info.modTime, Path := "" } :: items)
      else
        match formatSize info.size with
        | none => .error (.panic "index out of range")
        | some size =>
          match listEntries os s path rest with
          | .error e => .error e
          | .ok items =>
            .ok ({ ID := name, Name := name, Typ := "file", Size := size,
                   Modified := info.modTime, Path := "" } :: items)

/-- The method `ListFiles`; `caseTable` is the table `strings.ToLower` reads
for the runes above ASCII. -/
def ListFiles {σ : Type} (fm : FileManager) (caseTable : Char → Char) (os : OS σ) (s : σ)
    (username path : String) : Except Err (List FileItem) :=
  match fm.resolveDir os s username path with
  | .error e => .error e
  | .ok path =>
    match os.stat s path with
    | .error e => .error (.os e)
    | .ok info =>
      if !info.isDir then .error (.new "not a directory")
      else
        match os.readDir s path with
        | .error e => .error (.os e)
        | .ok entries =>
          match listEntries os s path entries with
          | .error e => .error e
          | .ok items => .ok (sortSlice (itemLess caseTable) items)

/-- The method `CreateFolder`. -/
def CreateFolder {σ : Type} (fm : FileManager) (os : OS σ) (s : σ)
    (username parentPath folderName : String) : Option Err × σ :=
  match fm.resolveDir os s username parentPath with
  | .error e => (some e, s)
  | .ok parentPath =>
    if folderName = "" ∨ ContainsAny folderName "/\\" then
      (some (.new "invalid folder name"), s)
    else
      let newPath := Join [parentPath, folderName]
      let r := os.mkdirAll s newPath
      (r.1.map Err.os, r.2)

/-- The method `RenameItem`. -/
def RenameItem {σ : Type} (fm : FileManager) (os : OS σ) (s : σ)
    (username path oldName newName : String) : Option Err × σ :=
  let userDir := fm.GetUserDir username
  match fm.resolveDir os s username path with
  | .error e => (some e, s)
  | .ok path =>
    if newName = "" ∨ ContainsAny newName "/\\" then
      (some (.new "invalid name"), s)
    else
      let oldPath := Join [path, oldName]
      let newPath := Join [path, newName]
      let absUserDir := Abs (os.getwd s) userDir
      let absOldPath := Abs (os.getwd s) oldPath
      let absNewPath := Abs (os.getwd s) newPath
      if !HasPrefix absOldPath absUserDir ∨ !HasPrefix absNewPath absUserDir then
        (some (.new "invalid path"), s)
      else
        let r := os.rename s oldPath newPath
        (r.1.map Err.os, r.2)

/-- The name loop of `DeleteItems`: a name whose joined path fails the prefix
test, or that `os.Stat` does not find, is passed over; the errors of
`os.RemoveAll` and `os.Remove` are dropped. -/
def deleteNames {σ : Type} (os : OS σ) (userDir path : String) : σ → List String → σ
  | s, [] => s
  | s, name :: rest =>
    let itemPath := Join [path, name]
    let absUserDir := Abs (os.getwd s) userDir
    let absItemPath := Abs (os.getwd s) itemPath
    if !HasPrefix absItemPath absUserDir then deleteNames os userDir path s rest
    else
      match os.stat s itemPath with
      | .error _ => deleteNames os userDir path s rest
      | .ok info =>
        if info.isDir then deleteNames os userDir path (os.removeAll s itemPath).2 rest
        else deleteNames os userDir path (os.remove s itemPath).2 rest

/-- The method `DeleteItems`. -/
def DeleteItems {σ : Type} (fm : FileManager) (os : OS σ) (s : σ)
    (username path : String) (names : List String) : Option Err × σ :=
  let userDir := fm.GetUserDir username
  match fm.resolveDir os s username path with
  | .error e => (some e, s)
  | .ok path => (none, deleteNames os userDir path s names)

end FileManager

/-! ## `encoding/base64` -/

/-- The alphabet of `base64.URLEncoding`. -/
def urlAlphabet : List Char :=
  "ABCDEFGHIJKLMNOPQRSTUVWXYZabcdefghijklmnopqrstuvwxyz0123456789-_".data

/-- The character of a six-bit value. -/
def urlChar (n : Nat) : Char :=
  urlAlphabet.getD (n % 64) 'A'

/-- The Go function `base64.URLEncoding.EncodeToString` on a list of bytes. -/
def encodeURL : List Nat → List Char
  | [] => []
  | [a] => [urlChar (a / 4), urlChar (a % 4 * 16), '=', '=']
  | [a, b] => [urlChar (a / 4), urlChar (a % 4 * 16 + b / 16), urlChar (b % 16 * 4), '=']
  | a :: b :: c :: rest =>
    urlChar (a / 4) :: urlChar (a % 4 * 16 + b / 16) :: urlChar (b % 16 * 4 + c / 64) ::
      urlChar (c % 64) :: encodeURL rest

/-! ## Go maps with string keys -/

/-- A Go `map[string]*T` as an association list without repeated keys. -/
abbrev GoMap (α : Type) := List (String × α)

namespace GoMap

/-- The lookup `v, ok := m[k]`. -/
def get {α : Type} (m : GoMap α) (k : String) : Option α :=
  match m with
  | [] => none
  | (k', v) :: rest => if k' = k then some v else get rest k

/-- The builtin `delete(m, k)`. -/
def delete {α : Type} (m : GoMap α) (k : String) : GoMap α :=
  m.filter (fun e => e.1 ≠ k)

/-- The assignment `m[k] = v`. -/
def set {α : Type} (m : GoMap α) (k : String) (v : α) : GoMap α :=
  delete m k ++ [(k, v)]

end GoMap

/-! ## `sync.RWMutex` -/

/-- The state of a `sync.RWMutex`: whether a writer holds it, and how many
readers do. -/
structure RWMutex where
  writer : Bool
  readers : Nat
  deriving DecidableEq, Repr

namespace RWMutex

/-- The zero value: an unlocked mutex. -/
def free : RWMutex := { writer := false, readers := 0 }

/-- The method `Lock`: granted when nobody holds the mutex; `none` when the
caller has to wait. -/
def Lock (m : RWMutex) : Option RWMutex :=
  if m.writer = false ∧ m.readers = 0 then some { m with writer := true } else none

/-- The method `Unlock`. -/
def Unlock (m : RWMutex) : RWMutex :=
  { m with writer := false }

/-- The method `RLock`: granted when no writer holds the mutex; `none` when
the caller has to wait. -/
def RLock (m : RWMutex) : Option RWMutex :=
  if m.writer = false then some { m with readers := m.readers + 1 } else none

/-- The method `RUnlock`. -/
def RUnlock (m : RWMutex) : RWMutex :=
  { m with readers := m.readers - 1 }

end RWMutex

/-- How a call ends in a sequential run: it returns `val` and leaves the
state `st`, or it waits for ever on a mutex, the state being `st`. -/
inductive Outcome (σ α : Type) where
  | done (val : α) (st : σ)
  | blocked (st : σ)
  deriving DecidableEq, Repr

/-- The state a call leaves, returned or not. -/
def Outcome.state {σ α : Type} : Outcome σ α → σ
  | .done _ st => st
  | .blocked st => st

/-! ## The authentication manager -/

/-- The struct `Token`; `ExpiresAt` is in nanoseconds. -/
structure Token where
  Value : String
  Username : String
  ExpiresAt : Int
  deriving DecidableEq, Repr

/-- The struct `User`. -/
structure User where
  Username : String
  Password : String
  deriving DecidableEq, Repr

/-- The struct `AuthManager`. -/
structure AuthManager where
  tokens : GoMap Token
  users : GoMap User
  mu : RWMutex
  credsFile : String
  deriving DecidableEq, Repr

/-- What is at the path of the credentials file: nothing, a file that cannot
be read, a file that is not a JSON array of user records, or the records. -/
inductive StoreFile where
  | missing
  | unreadable (msg : String)
  | malformed (msg : String)
  | records (us : List User)
  deriving DecidableEq, Repr

/-- The disk as the manager sees it: the credentials file, and the error of
`os.MkdirAll` or `os.WriteFile` when the file cannot be written. -/
structure Disk where
  file : StoreFile
  writeErr : Option String
  deriving DecidableEq, Repr

/-- The constant `time.Hour`, in nanoseconds. -/
def Hour : Int := 3600 * 1000000000

namespace AuthManager

/-- The method `GenerateToken`; `now` is the reading of `time.Now` and `rnd`
the outcome of `rand.Read`: its error, or the 32 bytes read. -/
def GenerateToken (am : AuthManager) (now : Int) (rnd : Except String (List Nat))
    (username : String) : Outcome AuthManager (Except Err String) :=
  match rnd with
  | .error e => .done (.error (.os e)) am
  | .ok tokenBytes =>
    let token := String.mk (encodeURL tokenBytes)
    match am.mu.Lock with
    | none => .blocked am
    | some mu =>
      .done (.ok token)
        { am with
          tokens := am.tokens.set token
            { Value := token, Username := username, ExpiresAt := now + 24 * Hour }
          mu := mu.Unlock }

/-- The method `ValidateToken`; `now` is the reading of `time.Now`. -/
def ValidateToken (am : AuthManager) (now : Int) (token : String) :
    Outcome AuthManager (Except Err Token) :=
  match am.mu.RLock with
  | none => .blocked am
  | some mu =>
    match am.tokens.get token with
    | none => .done (.error (.new "invalid token")) { am with mu := mu.RUnlock }
    | some t =>
      if t.ExpiresAt < now then
        .done (.error (.new "token expired"))
          { am with tokens := am.tokens.delete token, mu := mu.RUnlock }
      else .done (.ok t) { am with mu := mu.RUnlock }

/-- The method `RevokeToken`. -/
def RevokeToken (am : AuthManager) (token : String) : Outcome AuthManager Unit :=
  match am.mu.Lock with
  | none => .blocked am
  | some mu => .done () { am with tokens := am.tokens.delete token, mu := mu.Unlock }

/-- The method `CleanupExpiredTokens`; `now` is the reading of `time.Now`. -/
def CleanupExpiredTokens (am : AuthManager) (now : Int) : Outcome AuthManager Unit :=
  match am.mu.Lock with
  | none => .blocked am
  | some mu =>
    .done () { am with
      tokens := am.tokens.filter (fun e => !decide (e.2.ExpiresAt < now))
      mu := mu.Unlock }

/-- The method `Authenticate`. -/
def Authenticate (am : AuthManager) (username password : String) : Outcome AuthManager Bool :=
  if username = "" ∨ password = "" then .done false am
  else
    match am.mu.RLock with
    | none => .blocked am
    | some mu =>
      match am.users.get username with
      | none => .done false { am with mu := mu.RUnlock }
      | some user => .done (decide (user.Password = password)) { am with mu := mu.RUnlock }

/-- The method `SaveUsersToFile`. -/
def SaveUsersToFile (am : AuthManager) (disk : Disk) :
    Outcome (AuthManager × Disk) (Option Err) :=
  if am.credsFile = "" then .done none (am, disk)
  else
    match am.mu.RLock with
    | none => .blocked (am, disk)
    | some mu =>
      let users := am.users.map (fun e => e.2)
      match disk.writeErr with
      | some e => .done (some (.os e)) ({ am with mu := mu.RUnlock }, disk)
      | none => .done none ({ am with mu := mu.RUnlock }, { disk with file := .records users })

/-- The loop of `LoadUsersFromFile`: every record not named `admin` is stored
under its name. -/
def loadRecords (users : GoMap User) : List User → GoMap User
  | [] => users
  | user :: rest =>
    if user.Username ≠ "admin" then loadRecords (users.set user.Username user) rest
    else loadRecords users rest

/-- The method `LoadUsersFromFile`. -/
def LoadUsersFromFile (am : AuthManager) (disk : Disk) :
    Outcome (AuthManager × Disk) (Option Err) :=
  if am.credsFile = "" then .done none (am, disk)
  else
    match am.mu.Lock with
    | none => .blocked (am, disk)
    | some mu =>
      match disk.file with
      | .missing => .done none ({ am with mu := mu.Unlock }, disk)
      | .unreadable e => .done (some (.os e)) ({ am with mu := mu.Unlock }, disk)
      | .malformed e => .done (some (.os e)) ({ am with mu := mu.Unlock }, disk)
      | .records us =>
        .done none ({ am with users := loadRecords am.users us, mu := mu.Unlock }, disk)

/-- The character test of `CreateUser`. -/
def validChar (char : Char) : Bool :=
  (decide ('a' ≤ char) && decide (char ≤ 'z')) || (decide ('A' ≤ char) && decide (char ≤ 'Z')) ||
    (decide ('0' ≤ char) && decide (char ≤ '9')) || decide (char = '_')

/-- The method `CreateUser`. -/
def CreateUser (am : AuthManager) (disk : Disk) (username password : String) :
    Outcome (AuthManager × Disk) (Option Err) :=
  if username = "" ∨ password = "" then
    .done (some (.new "username and password are required")) (am, disk)
  else if username = "admin" then
    .done (some (.new "cannot create a user with the name 'admin'")) (am, disk)
  else if !username.data.all validChar then
    .done (some (.new "username contains invalid characters")) (am, disk)
  else
    match am.mu.Lock with
    | none => .blocked (am, disk)
    | some mu =>
      match am.users.get username with
      | some _ => .done (some (.new "user already exists")) ({ am with mu := mu.Unlock }, disk)
      | none =>
        let am₁ : AuthManager :=
          { am with
            users := am.users.set username { Username := username, Password := password }
            mu := mu }
        match SaveUsersToFile am₁ disk with
        | .blocked st => .blocked st
        | .done err (am₂, disk₂) => .done err ({ am₂ with mu := am₂.mu.Unlock }, disk₂)

/-- The method `UserExists`. -/
def UserExists (am : AuthManager) (username : String) : Outcome AuthManager Bool :=
  match am.mu.RLock with
  | none => .blocked am
  | some mu => .done (am.users.get username).isSome { am with mu := mu.RUnlock }

end AuthManager

/-- The function `NewAuthManager`: the manager it returns and the disk it
leaves. -/
def NewAuthManager (credsFilePath : String) (disk : Disk) :
    Outcome (AuthManager × Disk) Unit :=
  let am : AuthManager :=
    { tokens := [], users := GoMap.set [] "admin" { Username := "admin", Password := "admin" },
      mu := RWMutex.free, credsFile := credsFilePath }
  match am.LoadUsersFromFile disk with
  | .blocked st => .blocked st
  | .done _ (am₁, disk₁) =>
    match am₁.SaveUsersToFile disk₁ with
    | .blocked st => .blocked st
    | .done _ st => .done () st

/-- The managers a sequential run can hold between calls: the one
`NewAuthManager` returns, and the one left by a call that returned. The
credentials file may hold anything at each call. -/
inductive Reachable : AuthManager → Prop where
  | init (credsFilePath : String) (disk disk₁ : Disk) (am : AuthManager) :
      NewAuthManager credsFilePath disk = .done () (am, disk₁) → Reachable am
  | load (am am₁ : AuthManager) (disk disk₁ : Disk) (err : Option Err) :
      Reachable am → am.LoadUsersFromFile disk = .done err (am₁, disk₁) → Reachable am₁
  | create (am am₁ : AuthManager) (disk disk₁ : Disk) (username password : String)
      (err : Option Err) :
      Reachable am → am.CreateUser disk username password = .done err (am₁, disk₁) →
        Reachable am₁
  | generate (am am₁ : AuthManager) (now : Int) (rnd : Except String (List Nat))
      (username : String) (res : Except Err String) :
      Reachable am → am.GenerateToken now rnd username = .done res am₁ → Reachable am₁
  | validate (am am₁ : AuthManager) (now : Int) (token : String) (res : Except Err Token) :
      Reachable am → am.ValidateToken now token = .done res am₁ → Reachable am₁
  | revoke (am am₁ : AuthManager) (token : String) :
      Reachable am → am.RevokeToken token = .done () am₁ → Reachable am₁
  | cleanup (am am₁ : AuthManager) (now : Int) :
      Reachable am → am.CleanupExpiredTokens now = .done () am₁ → Reachable am₁

/-! ## The API handler -/

/-- The struct `APIHandler`. -/
structure APIHandler where
  authManager : AuthManager
  fileManager : FileManager
  dataDir : String
  deriving DecidableEq, Repr

/-- The path `NewAPIHandler` gives the credentials file. -/
def credsFileOf (dataDir : String) : String :=
  Join [Join [Join [dataDir, "files"], "admin"], "USER_CREDS.json"]

/-- The function `NewAPIHandler`: the handler it returns and the disk it
leaves. -/
def NewAPIHandler (dataDir : String) (disk : Disk) : Outcome (APIHandler × Disk) Unit :=
  let filesDir := Join [dataDir, "files"]
  let adminDir := Join [filesDir, "admin"]
  let credsFile := Join [adminDir, "USER_CREDS.json"]
  match NewAuthManager credsFile disk with
  | .blocked st =>
    .blocked ({ authManager := st.1, fileManager := NewFileManager filesDir, dataDir := dataDir },
      st.2)
  | .done _ st =>
    .done () ({ authManager := st.1, fileManager := NewFileManager filesDir, dataDir := dataDir },
      st.2)

/-! ## Containment, as the specification words it -/

/-- Whether the cleaned absolute path `p` is `root` or a descendant of
`root`: equal to it, or `root` followed by a separator and more. -/
def isWithin (root p : String) : Bool :=
  p = root ||
    HasPrefix p (if root.data.getLast? = some '/' then root else String.mk (root.data ++ ['/']))

/-! ## An in-memory filesystem for the examples -/

/-- A filesystem as a table from cleaned absolute paths to what `os.Stat`
reports; the working directory is `/`. -/
abbrev MemFS := List (String × FileInfo)

namespace MemFS

/-- The directory holding `p`. -/
def parent (p : String) : String :=
  Clean (String.mk (p.data ++ ['/', '.', '.']))

/-- The last element of `p`. -/
def base (p : String) : String :=
  String.mk ((splitSep p.data).getLast?.getD [])

/-- The paths of `p` and of the directories above it, outermost first. -/
def chain (p : String) : List String :=
  (((splitSep p.data).filter (fun e => e ≠ [])).inits.tail).map
    (fun pre => String.mk ('/' :: joinSep pre))

/-- Whether `k` is `d` or lies below `d`. -/
def under (d k : String) : Bool :=
  k = d || HasPrefix k (String.mk (d.data ++ ['/']))

/-- Create the listed directories in turn. -/
def mkdirs (fs : MemFS) : List String → Option String × MemFS
  | [] => (none, fs)
  | d :: ds =>
    match fs.lookup d with
    | none => mkdirs (fs ++ [(d, { isDir := true, size := 0, modTime := "" })]) ds
    | some i => if i.isDir then mkdirs fs ds else (some "not a directory", fs)

end MemFS

/-- The in-memory filesystem as an operating system. -/
def memOS : OS MemFS where
  getwd _ := some "/"
  stat fs p :=
    match fs.lookup (Abs (some "/") p) with
    | some i => .ok i
    | none => .error "no such file or directory"
  readDir fs p :=
    match fs.lookup (Abs (some "/") p) with
    | none => .error "no such file or directory"
    | some i =>
      if i.isDir then
        .ok (sortSlice strLess
          ((fs.filter (fun e => e.1 ≠ Abs (some "/") p ∧ MemFS.parent e.1 = Abs (some "/") p)).map
            (fun e => MemFS.base e.1)))
      else .error "not a directory"
  mkdirAll fs p := MemFS.mkdirs fs (MemFS.chain (Abs (some "/") p))
  rename fs o n :=
    match fs.lookup (Abs (some "/") o) with
    | none => (some "no such file or directory", fs)
    | some _ =>
      (none, fs.map (fun e =>
        if MemFS.under (Abs (some "/") o) e.1 then
          (String.mk ((Abs (some "/") n).data ++ e.1.data.drop (Abs (some "/") o).data.length), e.2)
        else e))
  remove fs p :=
    match fs.lookup (Abs (some "/") p) with
    | none => (some "no such file or directory", fs)
    | some _ =>
      if fs.any (fun e => e.1 ≠ Abs (some "/") p ∧ MemFS.under (Abs (some "/") p) e.1) then
        (some "directory not empty", fs)
      else (none, fs.filter (fun e => e.1 ≠ Abs (some "/") p))
  removeAll fs p := (none, fs.filter (fun e => !MemFS.under (Abs (some "/") p) e.1))

/-- A directory entry of the examples. -/
def exDir : FileInfo := { isDir := true, size := 0, modTime := "2024-01-01" }

/-- A ten-byte file of the examples. -/
def exFile : FileInfo := { isDir := false, size := 10, modTime := "2024-01-02" }

/-- Two users whose directory names share a prefix: `bob` and `bobby`. -/
def exSiblings : MemFS :=
  [("/data", exDir), ("/data/files", exDir), ("/data/files/bob", exDir),
   ("/data/files/bobby", exDir), ("/data/files/bobby/secret.txt", exFile)]

/-- The directory of the listing example: the file `b.txt` and the folder `A`. -/
def exListing : MemFS :=
  [("/data", exDir), ("/data/files", exDir), ("/data/files/bob", exDir),
   ("/data/files/bob/b.txt", exFile), ("/data/files/bob/A", exDir)]

/-- The rows of `unicode.CaseRanges` for the runes from U+0080 to U+00FF:
the capital letters U+00C0 to U+00DE, U+00D7 apart, map 32 places up. For
the examples, whose names have no rune beyond U+00FF. -/
def latin1Lower (r : Char) : Char :=
  if (0xC0 ≤ r.toNat ∧ r.toNat ≤ 0xD6) ∨ (0xD8 ≤ r.toNat ∧ r.toNat ≤ 0xDE) then
    Char.ofNat (r.toNat + 32)
  else r

/-- A directory whose order depends on the case mapping: the files `B.txt`,
`a.txt`, `Ê.txt` and `é.txt`. -/
def exCases : MemFS :=
  [("/data", exDir), ("/data/files", exDir), ("/data/files/bob", exDir),
   ("/data/files/bob/B.txt", exFile), ("/data/files/bob/a.txt", exFile),
   ("/data/files/bob/Ê.txt", exFile), ("/data/files/bob/é.txt", exFile)]

/-! ## Predicates of the statements -/

/-- The unit `formatSize` prints for sizes from `1024^k` up to `1024^(k+1)`. -/
def unitName (k : Nat) : String :=
  (["KB", "MB", "GB", "TB"].get? (k - 1)).getD ""

/-- An ASCII letter, an ASCII digit or the underscore. -/
def IsWordChar (c : Char) : Prop :=
  c.isAlpha = true ∨ c.isDigit = true ∨ c = '_'

namespace FileManager

/-- The two kinds of item `ListFiles` builds. -/
def IsItem (a : FileItem) : Prop :=
  a.Typ = "folder" ∨ a.Typ = "file"

/-- The directory a call works in before the prefix check: the path itself
when absolute, otherwise the user directory joined with it. -/
def resolved (fm : FileManager) (username path : String) : String :=
  if IsAbs path then path else Join [fm.GetUserDir username, path]

/-- The caller's path resolves inside the user root: it names the root
itself, or its cleaned absolute form is the user root or a descendant. -/
def ResolvesInside {σ : Type} (fm : FileManager) (os : OS σ) (s : σ)
    (username path : String) : Prop :=
  path = "" ∨ path = "root" ∨ path = "/" ∨
    isWithin (Abs (os.getwd s) (fm.GetUserDir username))
      (Abs (os.getwd s) (fm.resolved username path)) = true

end FileManager

namespace AuthManager

/-- The built-in administrator is stored and the mutex is free. -/
def AdminKept (am : AuthManager) : Prop :=
  am.users.get "admin" = some { Username := "admin", Password := "admin" } ∧
    am.mu = RWMutex.free

end AuthManager

/-! ## Example managers -/

/-- A manager with no token and the built-in administrator. -/
def exManager : AuthManager :=
  { tokens := [], users := [("admin", { Username := "admin", Password := "admin" })],
    mu := RWMutex.free, credsFile := "" }

/-- The manager `NewAuthManager` returns when the credentials file holds a
record for `bob` with an empty secret. -/
def exLoaded : AuthManager :=
  { tokens := [],
    users := [("admin", { Username := "admin", Password := "admin" }),
              ("bob", { Username := "bob", Password := "" })],
    mu := RWMutex.free, credsFile := "creds.json" }

/-- The manager left when the credentials file names `admin` with another
secret and is loaded a second time. -/
def exReloaded : AuthManager :=
  { tokens := [],
    users := [("admin", { Username := "admin", Password := "admin" }),
              ("eve", { Username := "eve", Password := "pw" })],
    mu := RWMutex.free, credsFile := "creds.json" }

/-- The manager of the handler `NewAPIHandler("/srv/data")` returns when no
credentials file exists yet. -/
def exServed : AuthManager :=
  { tokens := [], users := [("admin", { Username := "admin", Password := "admin" })],
    mu := RWMutex.free, credsFile := "/srv/data/files/admin/USER_CREDS.json" }

/-- The disk `NewAPIHandler("/srv/data")` leaves: the credentials file holds
the administrator. -/
def exServedDisk : Disk :=
  { file := .records [{ Username := "admin", Password := "admin" }], writeErr := none }

/-! ## String order -/

theorem ltChars_iff (a b : List Char) : ltChars a b = true ↔ a < b := by
  induction a generalizing b with
  | nil =>
    cases b with
    | nil => simp [ltChars]
    | cons b bs => simp [ltChars]; exact List.nil_lt_cons b bs
  | cons a as ih =>
    cases b with
    | nil => simp [ltChars]
    | cons b bs =>
      simp only [ltChars]
      rcases lt_trichotomy a b with h | h | h
      · simp only [h, if_true, true_iff]
        exact List.Lex.rel h
      · subst h
        simp only [lt_irrefl, if_false, ih]
        exact (List.Lex.cons_iff).symm
      · have h1 : ¬ a < b := not_lt.mpr h.le
        simp only [h1, h, if_true, if_false]
        constructor
        · intro h; cases h
        · intro h'
          have h2 : b :: bs < a :: as := List.Lex.rel h
          exact absurd h' (lt_asymm h2)

theorem strLess_iff (a b : String) : strLess a b = true ↔ a < b := by
  unfold strLess
  rw [ltChars_iff]
  exact String.lt_iff_toList_lt.symm

theorem strLess_false_iff (a b : String) : strLess a b = false ↔ b ≤ a := by
  rw [← not_lt, ← strLess_iff]
  simp

/-! ## Sorting -/

theorem mem_insertSorted {α : Type} (less : α → α → Bool) (x z : α) (l : List α) :
    z ∈ insertSorted less x l ↔ z = x ∨ z ∈ l := by
  induction l with
  | nil => simp [insertSorted]
  | cons y ys ih =>
    simp only [insertSorted]
    split_ifs
    · simp only [List.mem_cons, ih]
      tauto
    · simp only [List.mem_cons]

theorem mem_sortSlice {α : Type} (less : α → α → Bool) (z : α) (l : List α) :
    z ∈ sortSlice less l ↔ z ∈ l := by
  induction l with
  | nil => simp [sortSlice]
  | cons y ys ih => simp only [sortSlice, mem_insertSorted, ih, List.mem_cons]

/-- Insertion keeps a list ordered, for a comparison that is asymmetric and
negatively transitive on the elements satisfying `P`. -/
theorem insertSorted_pairwise {α : Type} (less : α → α → Bool) (P : α → Prop)
    (asym : ∀ a b, P a → P b → less a b = true → less b a = false)
    (ntrans : ∀ a b c, P a → P b → P c →
      less b a = false → less c b = false → less c a = false)
    (x : α) (l : List α) (hx : P x) (hl : ∀ y ∈ l, P y)
    (hs : l.Pairwise (fun a b => less b a = false)) :
    (insertSorted less x l).Pairwise (fun a b => less b a = false) := by
  induction l with
  | nil => simp [insertSorted]
  | cons y ys ih =>
    have hy : P y := hl y (List.mem_cons_self _ _)
    have hys : ∀ z ∈ ys, P z := fun z hz => hl z (List.mem_cons_of_mem _ hz)
    rw [List.pairwise_cons] at hs
    simp only [insertSorted]
    split_ifs with h
    · rw [List.pairwise_cons]
      refine ⟨?_, ih hys hs.2⟩
      intro z hz
      rcases (mem_insertSorted less x z ys).mp hz with rfl | hz
      · exact asym y z hy hx h
      · exact hs.1 z hz
    · have hyx : less y x = false := by simpa using h
      rw [List.pairwise_cons]
      refine ⟨?_, List.pairwise_cons.mpr hs⟩
      intro z hz
      rcases List.mem_cons.mp hz with rfl | hz
      · exact hyx
      · exact ntrans x y z hx hy (hys z hz) hyx (hs.1 z hz)

theorem sortSlice_pairwise {α : Type} (less : α → α → Bool) (P : α → Prop)
    (asym : ∀ a b, P a → P b → less a b = true → less b a = false)
    (ntrans : ∀ a b c, P a → P b → P c →
      less b a = false → less c b = false → less c a = false)
    (l : List α) (hl : ∀ y ∈ l, P y) :
    (sortSlice less l).Pairwise (fun a b => less b a = false) := by
  induction l with
  | nil => simp [sortSlice]
  | cons y ys ih =>
    simp only [sortSlice]
    refine insertSorted_pairwise less P asym ntrans y _ (hl y (List.mem_cons_self _ _)) ?_
      (ih (fun z hz => hl z (List.mem_cons_of_mem _ hz)))
    intro z hz
    exact hl z (List.mem_cons_of_mem _ ((mem_sortSlice less z ys).mp hz))

/-! ## Listing order -/

namespace FileManager

theorem folder_ne_file : ("folder" : String) ≠ "file" := by decide

theorem itemLess_same (caseTable : Char → Char) (a b : FileItem) (h : a.Typ = b.Typ) :
    itemLess caseTable a b = strLess (ToLower caseTable a.Name) (ToLower caseTable b.Name) := by
  simp [itemLess, h]

theorem itemLess_diff (caseTable : Char → Char) (a b : FileItem) (h : a.Typ ≠ b.Typ) :
    itemLess caseTable a b = decide (a.Typ = "folder") := by
  simp [itemLess, h]

theorem itemLess_asym (caseTable : Char → Char) (a b : FileItem) (_ha : IsItem a)
    (hb : IsItem b) (h : itemLess caseTable a b = true) : itemLess caseTable b a = false := by
  by_cases hab : a.Typ = b.Typ
  · rw [itemLess_same caseTable a b hab, strLess_iff] at h
    rw [itemLess_same caseTable b a hab.symm, strLess_false_iff]
    exact h.le
  · rw [itemLess_diff caseTable a b hab] at h
    rw [itemLess_diff caseTable b a (Ne.symm hab)]
    have h1 : a.Typ = "folder" := by simpa using h
    rcases hb with hb | hb
    · exact absurd (h1.trans hb.symm) hab
    · simp [hb]

theorem itemLess_ntrans (caseTable : Char → Char) (a b c : FileItem) (ha : IsItem a)
    (hb : IsItem b) (hc : IsItem c)
    (h1 : itemLess caseTable b a = false) (h2 : itemLess caseTable c b = false) :
    itemLess caseTable c a = false := by
  have hff := folder_ne_file
  have hff2 : ("file" : String) ≠ "folder" := Ne.symm hff
  rcases ha with ha | ha <;> rcases hb with hb | hb <;> rcases hc with hc | hc
  all_goals
    simp only [itemLess, ha, hb, hc, ne_eq, not_true_eq_false, not_false_eq_true, if_true,
      if_false, hff, hff2, decide_True, decide_False, decide_eq_false_iff_not,
      decide_eq_true_eq, reduceCtorEq] at h1 h2 ⊢
  all_goals
    rw [strLess_false_iff] at h1 h2 ⊢
    exact le_trans h1 h2

theorem listEntries_isItem {σ : Type} (os : OS σ) (s : σ) (path : String)
    (entries : List String) :
    ∀ items, listEntries os s path entries = .ok items → ∀ a ∈ items, IsItem a := by
  induction entries with
  | nil =>
    intro items h a ha
    simp only [listEntries, Except.ok.injEq] at h
    subst h
    simp at ha
  | cons name rest ih =>
    intro items h a ha
    simp only [listEntries] at h
    split at h
    · exact ih items h a ha
    · split_ifs at h
      · split at h
        · exact absurd h (by simp)
        · rename_i items' hrest
          simp only [Except.ok.injEq] at h
          subst h
          rcases List.mem_cons.mp ha with rfl | ha
          · exact Or.inl rfl
          · exact ih items' hrest a ha
      · split at h
        · exact absurd h (by simp)
        · split at h
          · exact absurd h (by simp)
          · rename_i items' hrest
            simp only [Except.ok.injEq] at h
            subst h
            rcases List.mem_cons.mp ha with rfl | ha
            · exact Or.inr rfl
            · exact ih items' hrest a ha

/-- Whatever `ListFiles` returns is the sorted list of the items built from
the directory entries. -/
theorem ListFiles_ok_sorted {σ : Type} (fm : FileManager) (caseTable : Char → Char)
    (os : OS σ) (s : σ) (username path : String) (items : List FileItem)
    (h : fm.ListFiles caseTable os s username path = .ok items) :
    ∃ dir entries raw, listEntries os s dir entries = .ok raw ∧
      items = sortSlice (itemLess caseTable) raw := by
  simp only [ListFiles] at h
  split at h
  · exact absurd h (by simp)
  · rename_i dir _
    split at h
    · exact absurd h (by simp)
    · split_ifs at h
      split at h
      · exact absurd h (by simp)
      · rename_i entries _
        split at h
        · exact absurd h (by simp)
        · rename_i raw hraw
          simp only [Except.ok.injEq] at h
          exact ⟨dir, entries, raw, hraw, h.symm⟩

end FileManager

/-- C8: for every case table of `unicode`, every operating system and every
directory content, in the sequence `ListFiles` returns no file comes before
a folder, and two items of the same kind appear in non-decreasing order of
their names lower-cased by `strings.ToLower`. The directory holding the file
`b.txt` and the folder `A` lists as `[A, b.txt]`; the files `B.txt`, `a.txt`,
`Ê.txt` and `é.txt` list as `[a.txt, B.txt, é.txt, Ê.txt]`. -/
theorem ListFiles_order :
    (∀ (caseTable : Char → Char) (σ : Type) (fm : FileManager) (os : OS σ) (s : σ)
        (username path : String) (items : List FileItem),
      fm.ListFiles caseTable os s username path = .ok items →
        (∀ a ∈ items, a.Typ = "folder" ∨ a.Typ = "file") ∧
        items.Pairwise (fun a b =>
          ¬ (a.Typ = "file" ∧ b.Typ = "folder") ∧
          (a.Typ = b.Typ → ToLower caseTable a.Name ≤ ToLower caseTable b.Name))) ∧
    (NewFileManager "/data/files").ListFiles latin1Lower memOS exListing "bob" "" = .ok [
      { ID := "A", Name := "A", Typ := "folder", Size := "",
        Modified := "2024-01-01", Path := "" },
      { ID := "b.txt", Name := "b.txt", Typ := "file", Size := "10 B",
        Modified := "2024-01-02", Path := "" }] ∧
    (NewFileManager "/data/files").ListFiles latin1Lower memOS exCases "bob" "" = .ok [
      { ID := "a.txt", Name := "a.txt", Typ := "file", Size := "10 B",
        Modified := "2024-01-02", Path := "" },
      { ID := "B.txt", Name := "B.txt", Typ := "file", Size := "10 B",
        Modified := "2024-01-02", Path := "" },
      { ID := "é.txt", Name := "é.txt", Typ := "file", Size := "10 B",
        Modified := "2024-01-02", Path := "" },
      { ID := "Ê.txt", Name := "Ê.txt", Typ := "file", Size := "10 B",
        Modified := "2024-01-02", Path := "" }] ∧
    ToLower latin1Lower "B.txt" = "b.txt" ∧ ToLower latin1Lower "Ê.txt" = "ê.txt" := by
  refine ⟨?_, by rfl, by rfl, by decide, by decide⟩
  intro caseTable σ fm os s username path items h
  obtain ⟨dir, entries, raw, hraw, rfl⟩ :=
    FileManager.ListFiles_ok_sorted fm caseTable os s username path items h
  have hitem := FileManager.listEntries_isItem os s dir entries raw hraw
  have hitem2 : ∀ a ∈ sortSlice (FileManager.itemLess caseTable) raw, FileManager.IsItem a :=
    fun a ha => hitem a ((mem_sortSlice _ a raw).mp ha)
  refine ⟨hitem2, ?_⟩
  have hp := sortSlice_pairwise (FileManager.itemLess caseTable) FileManager.IsItem
    (FileManager.itemLess_asym caseTable) (FileManager.itemLess_ntrans caseTable) raw hitem
  rw [List.pairwise_iff_forall_sublist] at hp ⊢
  intro a b hab
  have hless := hp hab
  have ha : FileManager.IsItem a := hitem2 a (hab.subset (by simp))
  have hb : FileManager.IsItem b := hitem2 b (hab.subset (by simp))
  by_cases hty : a.Typ = b.Typ
  · refine ⟨?_, fun _ => ?_⟩
    · rintro ⟨h1, h2⟩
      exact FileManager.folder_ne_file ((h2.symm.trans hty.symm).trans h1)
    · rw [FileManager.itemLess_same caseTable b a hty.symm, strLess_false_iff] at hless
      exact hless
  · refine ⟨?_, fun h' => absurd h' hty⟩
    rintro ⟨_, h2⟩
    rw [FileManager.itemLess_diff caseTable b a (Ne.symm hty)] at hless
    simp [h2] at hless

/-- C8 on the directory of the four files whose order depends on the case
mapping: the call returns a list, and the list is ordered. -/
theorem ListFiles_order_witness :
    ∃ items,
      (NewFileManager "/data/files").ListFiles latin1Lower memOS exCases "bob" "" = .ok items ∧
      (∀ a ∈ items, a.Typ = "folder" ∨ a.Typ = "file") ∧
      items.Pairwise (fun a b =>
        ¬ (a.Typ = "file" ∧ b.Typ = "folder") ∧
        (a.Typ = b.Typ → ToLower latin1Lower a.Name ≤ ToLower latin1Lower b.Name)) :=
  ⟨_, ListFiles_order.2.2.1,
    ListFiles_order.1 latin1Lower MemFS (NewFileManager "/data/files") memOS exCases "bob" "" _
      ListFiles_order.2.2.1⟩

/-! ## Path checks -/

theorem HasPrefix_iff (s pre : String) : HasPrefix s pre = true ↔ pre.data <+: s.data := by
  unfold HasPrefix
  exact List.isPrefixOf_iff_prefix

/-- A path that is the root or below it passes the prefix test of the source. -/
theorem HasPrefix_of_isWithin (root p : String) (h : isWithin root p = true) :
    HasPrefix p root = true := by
  unfold isWithin at h
  rw [Bool.or_eq_true] at h
  rcases h with h | h
  · have hp : p = root := by simpa using h
    subst hp
    exact (HasPrefix_iff _ _).mpr (List.prefix_refl _)
  · rw [HasPrefix_iff] at h ⊢
    split_ifs at h
    · exact h
    · exact (List.prefix_append root.data ['/']).trans h

theorem ContainsAny_separators (name : String) :
    ContainsAny name "/\\" = true ↔ '/' ∈ name.data ∨ '\\' ∈ name.data := by
  unfold ContainsAny
  have h : ("/\\" : String).data = ['/', '\\'] := rfl
  rw [h, List.any_eq_true]
  constructor
  · rintro ⟨c, hc, hmem⟩
    have hc' : c = '/' ∨ c = '\\' := by simpa using hmem
    rcases hc' with rfl | rfl
    · exact Or.inl hc
    · exact Or.inr hc
  · rintro (h | h)
    · exact ⟨'/', h, by decide⟩
    · exact ⟨'\\', h, by decide⟩

namespace FileManager

theorem resolveDir_of_inside {σ : Type} (fm : FileManager) (os : OS σ) (s : σ)
    (username path : String) (h : fm.ResolvesInside os s username path) :
    ∃ dir, fm.resolveDir os s username path = .ok dir := by
  unfold resolveDir
  by_cases hsp : path = "" ∨ path = "root" ∨ path = "/"
  · exact ⟨fm.GetUserDir username, by simp only [hsp, if_true]⟩
  · have hin : isWithin (Abs (os.getwd s) (fm.GetUserDir username))
        (Abs (os.getwd s) (fm.resolved username path)) = true := by
      rcases h with h | h | h | h
      · exact absurd (Or.inl h) hsp
      · exact absurd (Or.inr (Or.inl h)) hsp
      · exact absurd (Or.inr (Or.inr h)) hsp
      · exact h
    have hpre := HasPrefix_of_isWithin _ _ hin
    unfold resolved at hpre
    refine ⟨if IsAbs path then path else Join [fm.GetUserDir username, path], ?_⟩
    simp only [hsp, if_false]
    cases habs : IsAbs path <;> simp [habs] at hpre ⊢ <;> simp [hpre]

end FileManager

/-- C10: for a path that resolves inside the user root and a new name that
is empty or holds `/` or `\`, `RenameItem` returns the error `invalid name`
and the filesystem state it leaves is the one it was given. -/
theorem RenameItem_invalid_name {σ : Type} (fm : FileManager) (os : OS σ) (s : σ)
    (username path oldName newName : String)
    (hpath : fm.ResolvesInside os s username path)
    (hname : newName = "" ∨ '/' ∈ newName.data ∨ '\\' ∈ newName.data) :
    fm.RenameItem os s username path oldName newName = (some (.new "invalid name"), s) := by
  obtain ⟨dir, hdir⟩ := FileManager.resolveDir_of_inside fm os s username path hpath
  have hbad : newName = "" ∨ ContainsAny newName "/\\" = true := by
    rcases hname with h | h
    · exact Or.inl h
    · exact Or.inr ((ContainsAny_separators newName).mpr h)
  simp only [FileManager.RenameItem, hdir, hbad, if_true]

/-- C10 at the path `docs` of user `bob` and the new name `c/txt`. -/
theorem RenameItem_invalid_name_witness :
    (NewFileManager "/data/files").ResolvesInside memOS exListing "bob" "docs" ∧
    ('/' ∈ ("c/txt" : String).data) ∧
    (NewFileManager "/data/files").RenameItem memOS exListing "bob" "docs" "b.txt" "c/txt" =
      (some (.new "invalid name"), exListing) :=
  ⟨Or.inr (Or.inr (Or.inr (by decide))), by decide,
    RenameItem_invalid_name (NewFileManager "/data/files") memOS exListing "bob" "docs" "b.txt"
      "c/txt" (Or.inr (Or.inr (Or.inr (by decide)))) (Or.inr (Or.inl (by decide)))⟩

/-- C1: user `bob` under `/data/files` asks for `../bobby`, and for the
absolute `/data/files/bobby`. The directory resolved is a sibling of the user
root, neither the root nor below it, yet the prefix test passes and
`ListFiles` reads the sibling directory and returns its entries. -/
theorem ListFiles_sibling_not_rejected :
    (NewFileManager "/data/files").GetUserDir "bob" = "/data/files/bob" ∧
    (NewFileManager "/data/files").resolved "bob" "../bobby" = "/data/files/bobby" ∧
    isWithin (Abs (some "/") "/data/files/bob") (Abs (some "/") "/data/files/bobby") = false ∧
    HasPrefix (Abs (some "/") "/data/files/bobby") (Abs (some "/") "/data/files/bob") = true ∧
    (NewFileManager "/data/files").ListFiles latin1Lower memOS exSiblings "bob" "../bobby" = .ok [
      { ID := "secret.txt", Name := "secret.txt", Typ := "file", Size := "10 B",
        Modified := "2024-01-02", Path := "" }] ∧
    (NewFileManager "/data/files").ListFiles latin1Lower memOS exSiblings "bob" "/data/files/bobby" = .ok [
      { ID := "secret.txt", Name := "secret.txt", Typ := "file", Size := "10 B",
        Modified := "2024-01-02", Path := "" }] ∧
    (NewFileManager "/data/files").ListFiles latin1Lower memOS exSiblings "bob" "../alice" =
      .error (.new "invalid path") := by
  refine ⟨by decide, by decide, by decide, by decide, by rfl, by rfl, by rfl⟩

/-- C2: user `bob` under `/data/files` creates the folder `..` in his root:
the name passes the name test, no prefix test follows, and the path handed to
`os.MkdirAll` is `/data/files`, above the user root. On a filesystem where
that directory is missing it is created. With the parent `../bobby` the
folder `x` is created in the sibling directory. -/
theorem CreateFolder_outside_root :
    (∀ (σ : Type) (os : OS σ) (s : σ),
      (NewFileManager "/data/files").CreateFolder os s "bob" "" ".." =
        ((os.mkdirAll s "/data/files").1.map Err.os, (os.mkdirAll s "/data/files").2)) ∧
    isWithin (Abs (some "/") "/data/files/bob") (Abs (some "/") "/data/files") = false ∧
    (NewFileManager "/data/files").CreateFolder memOS [] "bob" "" ".." =
      (none, [("/data", { isDir := true, size := 0, modTime := "" }),
              ("/data/files", { isDir := true, size := 0, modTime := "" })]) ∧
    (NewFileManager "/data/files").CreateFolder memOS exSiblings "bob" "../bobby" "x" =
      (none, exSiblings ++ [("/data/files/bobby/x", { isDir := true, size := 0, modTime := "" })]) ∧
    isWithin (Abs (some "/") "/data/files/bob") (Abs (some "/") "/data/files/bobby/x") = false := by
  refine ⟨fun σ os s => by rfl, by decide, by decide, by decide, by decide⟩

/-! ## `formatSize` -/

theorem formatSizeLoop_lt (n div exp : Nat) (h : n < 1024) :
    formatSizeLoop n div exp = (div, exp) := by
  rw [formatSizeLoop]
  simp [Nat.not_le.mpr h]

theorem formatSizeLoop_ge (n div exp : Nat) (h : 1024 ≤ n) :
    formatSizeLoop n div exp = formatSizeLoop (n / 1024) (div * 1024) (exp + 1) := by
  rw [formatSizeLoop]
  simp [h]

/-- The rounded quotient is within half a unit of the exact one. -/
theorem roundHalfEven_near (num den : Nat) (hden : 0 < den) :
    2 * (num - roundHalfEven num den * den) ≤ den ∧
      2 * (roundHalfEven num den * den - num) ≤ den := by
  have hdm := Nat.div_add_mod num den
  have hr := Nat.mod_lt num hden
  generalize hq : num / den = q at *
  generalize hrr : num % den = r at *
  have hmul : (q + 1) * den = den * q + den := by ring
  have hmul2 : q * den = den * q := by ring
  unfold roundHalfEven
  simp only [hq, hrr]
  split_ifs <;> simp only [hmul, hmul2] <;> omega

/-- C9: below 1024 `formatSize` prints the decimal numeral and ` B`; from
`1024^k` up to `1024^(k+1)`, `k` in 1..4, it prints `n / 1024^k` rounded to
the nearest tenth, with one decimal digit, a space and the unit KB, MB, GB,
TB; the three examples of the specification hold. -/
theorem formatSize_spec :
    (∀ n : Nat, n < 1024 → formatSize (n : Int) = some (toString n ++ " B")) ∧
    (∀ n k : Nat, 1 ≤ k → k ≤ 4 → 1024 ^ k ≤ n → n < 1024 ^ (k + 1) →
      ∃ t : Nat,
        formatSize (n : Int) =
          some (toString (t / 10) ++ "." ++ toString (t % 10) ++ " " ++ unitName k) ∧
        t = roundHalfEven (10 * n) (1024 ^ k) ∧
        2 * (10 * n - t * 1024 ^ k) ≤ 1024 ^ k ∧ 2 * (t * 1024 ^ k - 10 * n) ≤ 1024 ^ k) ∧
    formatSize 500 = some "500 B" ∧
    formatSize 2048 = some "2.0 KB" ∧
    formatSize 1048576 = some "1.0 MB" := by
  refine ⟨?_, ?_, by decide, ?_, ?_⟩
  · intro n hn
    have h : ((n : Int) < 1024) := by omega
    simp only [formatSize, h, if_true]
    rfl
  · intro n k hk1 hk4 hlo hhi
    refine ⟨roundHalfEven (10 * n) (1024 ^ k), ?_, rfl,
      roundHalfEven_near (10 * n) (1024 ^ k) (by positivity)⟩
    have h : ¬ ((n : Int) < 1024) := by
      have : 1024 ^ 1 ≤ 1024 ^ k := Nat.pow_le_pow_right (by norm_num) hk1
      omega
    have hloop : formatSizeLoop (n / 1024) 1024 0 = (1024 ^ k, k - 1) := by
      interval_cases k
      · rw [formatSizeLoop_lt _ _ _ (by omega)]
        rfl
      · rw [formatSizeLoop_ge _ _ _ (by omega), formatSizeLoop_lt _ _ _ (by omega)]
        rfl
      · rw [formatSizeLoop_ge _ _ _ (by omega), formatSizeLoop_ge _ _ _ (by omega),
          formatSizeLoop_lt _ _ _ (by omega)]
        rfl
      · rw [formatSizeLoop_ge _ _ _ (by omega), formatSizeLoop_ge _ _ _ (by omega),
          formatSizeLoop_ge _ _ _ (by omega), formatSizeLoop_lt _ _ _ (by omega)]
        rfl
    simp only [formatSize, h, if_false, Int.toNat_ofNat, hloop]
    interval_cases k <;> rfl
  · simp [formatSize, formatSizeLoop]
    decide
  · simp [formatSize, formatSizeLoop]
    decide

/-- C9 at `n = 1280`, `k = 1`: the bounds hold and the theorem applies. -/
theorem formatSize_spec_witness :
    1 ≤ 1 ∧ 1 ≤ 4 ∧ 1024 ^ 1 ≤ 1280 ∧ 1280 < 1024 ^ (1 + 1) ∧
    ∃ t : Nat,
      formatSize ((1280 : Nat) : Int) =
        some (toString (t / 10) ++ "." ++ toString (t % 10) ++ " " ++ unitName 1) ∧
      t = roundHalfEven (10 * 1280) (1024 ^ 1) ∧
      2 * (10 * 1280 - t * 1024 ^ 1) ≤ 1024 ^ 1 ∧ 2 * (t * 1024 ^ 1 - 10 * 1280) ≤ 1024 ^ 1 :=
  ⟨by decide, by decide, by decide, by decide,
    formatSize_spec.2.1 1280 1 (by decide) (by decide) (by decide) (by decide)⟩

/-! ## Maps and the mutex -/

namespace GoMap

theorem get_append {α : Type} (m₁ m₂ : GoMap α) (k : String) :
    get (m₁ ++ m₂) k = (get m₁ k).orElse (fun _ => get m₂ k) := by
  induction m₁ with
  | nil => simp [get]
  | cons e rest ih =>
    obtain ⟨k', v⟩ := e
    simp only [List.cons_append, get]
    split_ifs
    · simp
    · exact ih

theorem get_filter_of_false {α : Type} (m : GoMap α) (p : String × α → Bool) (k : String)
    (h : ∀ v, p (k, v) = false) : get (m.filter p) k = none := by
  induction m with
  | nil => simp [get]
  | cons e rest ih =>
    obtain ⟨k', v⟩ := e
    by_cases hk : k' = k
    · subst hk
      simp [List.filter, h v, ih]
    · cases hp : p (k', v) <;> simp [List.filter, hp, get, hk, ih]

theorem get_filter_of_true {α : Type} (m : GoMap α) (p : String × α → Bool) (k : String)
    (h : ∀ v, p (k, v) = true) : get (m.filter p) k = get m k := by
  induction m with
  | nil => simp [get]
  | cons e rest ih =>
    obtain ⟨k', v⟩ := e
    by_cases hk : k' = k
    · subst hk
      simp [List.filter, h v, get]
    · cases hp : p (k', v) <;> simp [List.filter, hp, get, hk, ih]

theorem get_delete_self {α : Type} (m : GoMap α) (k : String) : get (delete m k) k = none :=
  get_filter_of_false m _ k (fun _ => by simp)

theorem get_delete_ne {α : Type} (m : GoMap α) (k k' : String) (h : k' ≠ k) :
    get (delete m k) k' = get m k' :=
  get_filter_of_true m _ k' (fun _ => by simpa using h)

theorem get_set_self {α : Type} (m : GoMap α) (k : String) (v : α) :
    get (set m k v) k = some v := by
  simp [set, get_append, get_delete_self, get]

theorem get_set_ne {α : Type} (m : GoMap α) (k k' : String) (v : α) (h : k' ≠ k) :
    get (set m k v) k' = get m k' := by
  simp only [set, get_append, get_delete_ne m k k' h, get, if_neg (Ne.symm h)]
  cases get m k' <;> rfl

end GoMap

namespace RWMutex

theorem RLock_of_no_writer (m : RWMutex) (h : m.writer = false) :
    m.RLock = some { m with readers := m.readers + 1 } := by
  simp [RLock, h]

theorem RUnlock_RLock (m : RWMutex) :
    RUnlock { m with readers := m.readers + 1 } = m := by
  cases m
  simp [RUnlock]

theorem Lock_free : free.Lock = some { writer := true, readers := 0 } := rfl

theorem Unlock_locked : Unlock { writer := true, readers := 0 } = free := rfl

end RWMutex

/-! ## The token operations, call by call -/

namespace AuthManager

/-- What `ValidateToken` does when no writer holds the mutex. -/
theorem ValidateToken_eq (am : AuthManager) (now : Int) (token : String)
    (h : am.mu.writer = false) :
    am.ValidateToken now token =
      match am.tokens.get token with
      | none => .done (.error (.new "invalid token")) am
      | some t =>
        if t.ExpiresAt < now then
          .done (.error (.new "token expired")) { am with tokens := am.tokens.delete token }
        else .done (.ok t) am := by
  simp only [ValidateToken, RWMutex.RLock_of_no_writer _ h, RWMutex.RUnlock_RLock]

/-- What `RevokeToken` does when the mutex is free. -/
theorem RevokeToken_eq (am : AuthManager) (token : String) (h : am.mu = RWMutex.free) :
    am.RevokeToken token = .done () { am with tokens := am.tokens.delete token } := by
  simp only [RevokeToken, h, RWMutex.Lock_free, RWMutex.Unlock_locked]

/-- What `GenerateToken` does when the mutex is free and the random source
delivers. -/
theorem GenerateToken_eq (am : AuthManager) (now : Int) (bytes : List Nat) (username : String)
    (h : am.mu = RWMutex.free) :
    am.GenerateToken now (.ok bytes) username =
      .done (.ok (String.mk (encodeURL bytes)))
        { am with
          tokens := am.tokens.set (String.mk (encodeURL bytes))
            { Value := String.mk (encodeURL bytes), Username := username,
              ExpiresAt := now + 24 * Hour } } := by
  simp only [GenerateToken, h, RWMutex.Lock_free, RWMutex.Unlock_locked]

end AuthManager

/-- C4: from a state with the mutex free, `RevokeToken(v)` returns, for
every `v`, and the `ValidateToken(v)` that follows returns the error
`invalid token`, at every time. -/
theorem RevokeToken_then_ValidateToken (am : AuthManager) (v : String) (now : Int)
    (hmu : am.mu = RWMutex.free) :
    ∃ am₁, am.RevokeToken v = .done () am₁ ∧
      am₁.ValidateToken now v = .done (.error (.new "invalid token")) am₁ := by
  refine ⟨{ am with tokens := am.tokens.delete v }, AuthManager.RevokeToken_eq am v hmu, ?_⟩
  rw [AuthManager.ValidateToken_eq _ now v (by simp [hmu, RWMutex.free])]
  simp only [GoMap.get_delete_self]

/-- C4 on a manager that does not hold the token. -/
theorem RevokeToken_then_ValidateToken_witness :
    exManager.mu = RWMutex.free ∧
    ∃ am₁, exManager.RevokeToken "absent" = .done () am₁ ∧
      am₁.ValidateToken 0 "absent" = .done (.error (.new "invalid token")) am₁ :=
  ⟨rfl, RevokeToken_then_ValidateToken exManager "absent" 0 rfl⟩

/-! ## The credential operations, call by call -/

namespace AuthManager

/-- What `Authenticate` does when no writer holds the mutex. -/
theorem Authenticate_eq (am : AuthManager) (username password : String)
    (h : am.mu.writer = false) :
    am.Authenticate username password =
      if username = "" ∨ password = "" then .done false am
      else
        match am.users.get username with
        | none => .done false am
        | some user => .done (decide (user.Password = password)) am := by
  simp only [Authenticate, RWMutex.RLock_of_no_writer _ h, RWMutex.RUnlock_RLock]

/-- What `SaveUsersToFile` does when no writer holds the mutex. -/
theorem SaveUsersToFile_eq (am : AuthManager) (disk : Disk) (h : am.mu.writer = false) :
    am.SaveUsersToFile disk =
      if am.credsFile = "" then .done none (am, disk)
      else
        match disk.writeErr with
        | some e => .done (some (.os e)) (am, disk)
        | none => .done none (am, { disk with file := .records (am.users.map (fun e => e.2)) }) := by
  simp only [SaveUsersToFile, RWMutex.RLock_of_no_writer _ h, RWMutex.RUnlock_RLock]

/-- Called by a writer, `SaveUsersToFile` with a credentials path waits for
the read lock and does not return. -/
theorem SaveUsersToFile_locked (am : AuthManager) (disk : Disk) (h : am.mu.writer = true)
    (hpath : am.credsFile ≠ "") :
    am.SaveUsersToFile disk = .blocked (am, disk) := by
  simp [SaveUsersToFile, RWMutex.RLock, h, hpath]

/-- What `LoadUsersFromFile` does when the mutex is free. -/
theorem LoadUsersFromFile_eq (am : AuthManager) (disk : Disk) (h : am.mu = RWMutex.free) :
    am.LoadUsersFromFile disk =
      if am.credsFile = "" then .done none (am, disk)
      else
        match disk.file with
        | .missing => .done none (am, disk)
        | .unreadable e => .done (some (.os e)) (am, disk)
        | .malformed e => .done (some (.os e)) (am, disk)
        | .records us => .done none ({ am with users := loadRecords am.users us }, disk) := by
  simp only [LoadUsersFromFile, h, RWMutex.Lock_free, RWMutex.Unlock_locked]
  split_ifs
  · rfl
  · cases disk.file <;> simp only <;> rw [← h]

/-- What `CreateUser` does, from a state with the mutex free, once the three
input checks have passed. -/
theorem CreateUser_eq (am : AuthManager) (disk : Disk) (username password : String)
    (h₁ : ¬ (username = "" ∨ password = "")) (h₂ : username ≠ "admin")
    (h₃ : username.data.all validChar = true) (h : am.mu = RWMutex.free) :
    am.CreateUser disk username password =
      match am.users.get username with
      | some _ => .done (some (.new "user already exists")) (am, disk)
      | none =>
        if am.credsFile = "" then
          .done none
            ({ am with
                users := am.users.set username { Username := username, Password := password } },
              disk)
        else
          .blocked
            ({ am with
                users := am.users.set username { Username := username, Password := password }
                mu := { writer := true, readers := 0 } },
              disk) := by
  simp only [CreateUser, h₁, h₂, h₃, if_false, h, RWMutex.Lock_free, RWMutex.Unlock_locked,
    Bool.not_true, Bool.false_eq_true]
  cases hget : am.users.get username with
  | some u =>
    simp only
    rw [← h]
  | none =>
    simp only
    by_cases hp : am.credsFile = ""
    · simp only [SaveUsersToFile, hp, if_true, RWMutex.Unlock_locked]
    · simp [SaveUsersToFile, hp, RWMutex.RLock]

theorem get_loadRecords_admin (users : GoMap User) (us : List User) :
    (loadRecords users us).get "admin" = users.get "admin" := by
  induction us generalizing users with
  | nil => rfl
  | cons u rest ih =>
    simp only [loadRecords]
    split_ifs with h
    · rw [ih, GoMap.get_set_ne _ _ _ _ (Ne.symm h)]
    · exact ih users

theorem AdminKept_load (am am₁ : AuthManager) (disk disk₁ : Disk) (err : Option Err)
    (hinv : AdminKept am) (h : am.LoadUsersFromFile disk = .done err (am₁, disk₁)) :
    AdminKept am₁ := by
  rw [LoadUsersFromFile_eq am disk hinv.2] at h
  split_ifs at h
  · simp only [Outcome.done.injEq, Prod.mk.injEq] at h
    rw [← h.2.1]; exact hinv
  · split at h <;> simp only [Outcome.done.injEq, Prod.mk.injEq] at h
    · rw [← h.2.1]; exact hinv
    · rw [← h.2.1]; exact hinv
    · rw [← h.2.1]; exact hinv
    · rw [← h.2.1]
      exact ⟨(get_loadRecords_admin _ _).trans hinv.1, hinv.2⟩

theorem AdminKept_save (am am₁ : AuthManager) (disk disk₁ : Disk) (err : Option Err)
    (hinv : AdminKept am) (h : am.SaveUsersToFile disk = .done err (am₁, disk₁)) :
    AdminKept am₁ := by
  rw [SaveUsersToFile_eq am disk (by rw [hinv.2]; rfl)] at h
  split_ifs at h
  · simp only [Outcome.done.injEq, Prod.mk.injEq] at h
    rw [← h.2.1]; exact hinv
  · split at h <;> simp only [Outcome.done.injEq, Prod.mk.injEq] at h
    · rw [← h.2.1]; exact hinv
    · rw [← h.2.1]; exact hinv

theorem AdminKept_create (am am₁ : AuthManager) (disk disk₁ : Disk)
    (username password : String) (err : Option Err)
    (hinv : AdminKept am) (h : am.CreateUser disk username password = .done err (am₁, disk₁)) :
    AdminKept am₁ := by
  by_cases h₁ : username = "" ∨ password = ""
  · simp only [CreateUser, h₁, if_true, Outcome.done.injEq, Prod.mk.injEq] at h
    rw [← h.2.1]; exact hinv
  by_cases h₂ : username = "admin"
  · subst h₂
    simp only [CreateUser, h₁, if_true, if_false, Outcome.done.injEq, Prod.mk.injEq] at h
    rw [← h.2.1]; exact hinv
  by_cases h₃ : username.data.all validChar = true
  · rw [CreateUser_eq am disk username password h₁ h₂ h₃ hinv.2] at h
    split at h
    · simp only [Outcome.done.injEq, Prod.mk.injEq] at h
      rw [← h.2.1]; exact hinv
    · split_ifs at h
      simp only [Outcome.done.injEq, Prod.mk.injEq] at h
      rw [← h.2.1]
      exact ⟨(GoMap.get_set_ne _ _ _ _ (Ne.symm h₂)).trans hinv.1, hinv.2⟩
  · simp only [CreateUser, h₁, h₂, h₃, if_false, Bool.not_false, if_true, Outcome.done.injEq,
      Prod.mk.injEq] at h
    rw [← h.2.1]; exact hinv

theorem AdminKept_generate (am am₁ : AuthManager) (now : Int) (rnd : Except String (List Nat))
    (username : String) (res : Except Err String)
    (hinv : AdminKept am) (h : am.GenerateToken now rnd username = .done res am₁) :
    AdminKept am₁ := by
  cases rnd with
  | error e =>
    simp only [GenerateToken, Outcome.done.injEq] at h
    rw [← h.2]; exact hinv
  | ok bytes =>
    rw [GenerateToken_eq am now bytes username hinv.2] at h
    simp only [Outcome.done.injEq] at h
    rw [← h.2]; exact hinv

theorem AdminKept_validate (am am₁ : AuthManager) (now : Int) (token : String)
    (res : Except Err Token)
    (hinv : AdminKept am) (h : am.ValidateToken now token = .done res am₁) :
    AdminKept am₁ := by
  rw [ValidateToken_eq am now token (by rw [hinv.2]; rfl)] at h
  split at h
  · simp only [Outcome.done.injEq] at h
    rw [← h.2]; exact hinv
  · split_ifs at h <;> simp only [Outcome.done.injEq] at h <;> rw [← h.2] <;> exact hinv

theorem AdminKept_revoke (am am₁ : AuthManager) (token : String)
    (hinv : AdminKept am) (h : am.RevokeToken token = .done () am₁) : AdminKept am₁ := by
  rw [RevokeToken_eq am token hinv.2] at h
  simp only [Outcome.done.injEq, true_and] at h
  rw [← h]; exact hinv

theorem AdminKept_cleanup (am am₁ : AuthManager) (now : Int)
    (hinv : AdminKept am) (h : am.CleanupExpiredTokens now = .done () am₁) : AdminKept am₁ := by
  simp only [CleanupExpiredTokens, hinv.2, RWMutex.Lock_free, RWMutex.Unlock_locked,
    Outcome.done.injEq, true_and] at h
  rw [← h]; exact ⟨hinv.1, rfl⟩

end AuthManager

theorem AdminKept_new (credsFilePath : String) (disk disk₁ : Disk) (am : AuthManager)
    (h : NewAuthManager credsFilePath disk = .done () (am, disk₁)) :
    AuthManager.AdminKept am := by
  unfold NewAuthManager at h
  simp only at h
  split at h
  · simp at h
  · rename_i e am₁ d₁ hload
    have h₁ := AuthManager.AdminKept_load _ am₁ disk d₁ e ⟨GoMap.get_set_self _ _ _, rfl⟩ hload
    split at h
    · simp at h
    · rename_i e₂ st hsave
      simp only [Outcome.done.injEq, true_and] at h
      subst h
      exact AuthManager.AdminKept_save am₁ am d₁ disk₁ e₂ h₁ hsave

/-- `NewAuthManager` returns, whatever the credentials file holds. -/
theorem NewAuthManager_returns (credsFilePath : String) (disk : Disk) :
    ∃ am disk₁, NewAuthManager credsFilePath disk = .done () (am, disk₁) := by
  unfold NewAuthManager
  simp only
  rw [AuthManager.LoadUsersFromFile_eq _ disk rfl]
  by_cases hp : credsFilePath = ""
  · simp only [hp, if_true]
    rw [AuthManager.SaveUsersToFile_eq _ _ rfl]
    simp only [if_true]
    exact ⟨_, _, rfl⟩
  · simp only [hp, if_false]
    cases disk.file <;> simp only <;> rw [AuthManager.SaveUsersToFile_eq _ _ rfl] <;>
      simp only [hp, if_false] <;> cases disk.writeErr <;> exact ⟨_, _, rfl⟩

theorem Reachable_AdminKept (am : AuthManager) (h : Reachable am) : AuthManager.AdminKept am := by
  induction h with
  | init p d d₁ am h => exact AdminKept_new p d d₁ am h
  | load am am₁ d d₁ e _ h ih => exact AuthManager.AdminKept_load am am₁ d d₁ e ih h
  | create am am₁ d d₁ u p e _ h ih => exact AuthManager.AdminKept_create am am₁ d d₁ u p e ih h
  | generate am am₁ now rnd u res _ h ih =>
    exact AuthManager.AdminKept_generate am am₁ now rnd u res ih h
  | validate am am₁ now tok res _ h ih =>
    exact AuthManager.AdminKept_validate am am₁ now tok res ih h
  | revoke am am₁ tok _ h ih => exact AuthManager.AdminKept_revoke am am₁ tok ih h
  | cleanup am am₁ now _ h ih => exact AuthManager.AdminKept_cleanup am am₁ now ih h

/-! ## `CreateUser`, `Authenticate` and the administrator -/

theorem validChar_iff (c : Char) : AuthManager.validChar c = true ↔ IsWordChar c := by
  simp only [AuthManager.validChar, IsWordChar, Char.isAlpha, Char.isUpper, Char.isLower,
    Char.isDigit, Bool.or_eq_true, Bool.and_eq_true, decide_eq_true_eq, Char.le_def,
    ge_iff_le, UInt32.le_def]
  have ha : ('a' : Char).val = 97 := rfl
  have hz : ('z' : Char).val = 122 := rfl
  have hA : ('A' : Char).val = 65 := rfl
  have hZ : ('Z' : Char).val = 90 := rfl
  have h0 : ('0' : Char).val = 48 := rfl
  have h9 : ('9' : Char).val = 57 := rfl
  simp only [ha, hz, hA, hZ, h0, h9]
  tauto

theorem all_validChar_iff (username : String) :
    username.data.all AuthManager.validChar = true ↔ ∀ c ∈ username.data, IsWordChar c := by
  simp only [List.all_eq_true, validChar_iff]

/-- C5: `CreateUser` returns, in this order of precedence, the error for a
missing field when the name or the secret is empty, the error for the
reserved name when the name is `admin`, the error for invalid characters
unless every character of the name is an ASCII letter, an ASCII digit or the
underscore, the error for an existing user when a credential is stored under
the name, and otherwise stores the credential under the name in the manager
it leaves. The three examples of the specification hold in every state. -/
theorem CreateUser_spec (am : AuthManager) (disk : Disk) (username secret : String) :
    (username = "" ∨ secret = "" →
      am.CreateUser disk username secret =
        .done (some (.new "username and password are required")) (am, disk)) ∧
    (username ≠ "" → secret ≠ "" → username = "admin" →
      am.CreateUser disk username secret =
        .done (some (.new "cannot create a user with the name 'admin'")) (am, disk)) ∧
    (username ≠ "" → secret ≠ "" → username ≠ "admin" →
      ¬ (∀ c ∈ username.data, IsWordChar c) →
      am.CreateUser disk username secret =
        .done (some (.new "username contains invalid characters")) (am, disk)) ∧
    (username ≠ "" → secret ≠ "" → username ≠ "admin" →
      (∀ c ∈ username.data, IsWordChar c) → am.mu = RWMutex.free →
      (∃ u, am.users.get username = some u) →
      am.CreateUser disk username secret =
        .done (some (.new "user already exists")) (am, disk)) ∧
    (username ≠ "" → secret ≠ "" → username ≠ "admin" →
      (∀ c ∈ username.data, IsWordChar c) → am.mu = RWMutex.free →
      am.users.get username = none →
      (am.CreateUser disk username secret).state.1.users =
          am.users.set username { Username := username, Password := secret } ∧
        (am.CreateUser disk username secret).state.1.users.get username =
          some { Username := username, Password := secret }) ∧
    am.CreateUser disk "admin" "x" =
      .done (some (.new "cannot create a user with the name 'admin'")) (am, disk) ∧
    am.CreateUser disk "bad name!" "x" =
      .done (some (.new "username contains invalid characters")) (am, disk) ∧
    am.CreateUser disk "bob" "" =
      .done (some (.new "username and password are required")) (am, disk) := by
  refine ⟨?_, ?_, ?_, ?_, ?_, by rfl, by rfl, by rfl⟩
  · intro h
    simp only [AuthManager.CreateUser, h, if_true]
  · intro h₁ h₂ h₃
    have h : ¬ (username = "" ∨ secret = "") := by tauto
    subst h₃
    simp only [AuthManager.CreateUser, h, if_true, if_false]
  · intro h₁ h₂ h₃ h₄
    have h : ¬ (username = "" ∨ secret = "") := by tauto
    have h₅ : username.data.all AuthManager.validChar = false := by
      rw [← Bool.not_eq_true, all_validChar_iff]
      exact h₄
    simp only [AuthManager.CreateUser, h, h₃, h₅, if_false, Bool.not_false, if_true]
  · intro h₁ h₂ h₃ h₄ hmu hex
    have h : ¬ (username = "" ∨ secret = "") := by tauto
    obtain ⟨u, hu⟩ := hex
    rw [AuthManager.CreateUser_eq am disk username secret h h₃
      ((all_validChar_iff username).mpr h₄) hmu, hu]
  · intro h₁ h₂ h₃ h₄ hmu hnone
    have h : ¬ (username = "" ∨ secret = "") := by tauto
    rw [AuthManager.CreateUser_eq am disk username secret h h₃
      ((all_validChar_iff username).mpr h₄) hmu, hnone]
    simp only
    split_ifs <;> exact ⟨rfl, GoMap.get_set_self _ _ _⟩

/-- C5 on the manager holding only the administrator: `carol` is stored, and
a second `carol` is refused. -/
theorem CreateUser_spec_witness :
    (exManager.CreateUser ⟨.missing, none⟩ "carol" "pw").state.1.users.get "carol" =
      some { Username := "carol", Password := "pw" } ∧
    (exManager.CreateUser ⟨.missing, none⟩ "carol" "pw").state.1.CreateUser ⟨.missing, none⟩
        "carol" "other" =
      .done (some (.new "user already exists"))
        ((exManager.CreateUser ⟨.missing, none⟩ "carol" "pw").state.1, ⟨.missing, none⟩) :=
  ⟨((CreateUser_spec exManager ⟨.missing, none⟩ "carol" "pw").2.2.2.2.1 (by decide) (by decide)
      (by decide) (fun c hc => (validChar_iff c).mp (by revert c; decide)) rfl rfl).2,
    (CreateUser_spec (exManager.CreateUser ⟨.missing, none⟩ "carol" "pw").state.1
      ⟨.missing, none⟩ "carol" "other").2.2.2.1 (by decide) (by decide) (by decide)
      (fun c hc => (validChar_iff c).mp (by revert c; decide)) rfl ⟨_, rfl⟩⟩

/-- C6, as the code has it: in every reachable state `Authenticate` returns,
and it returns true exactly when the name and the secret are both non-empty
and a credential is stored under the name whose secret is the given one; it
returns false whenever the name or the secret is empty. -/
theorem Authenticate_spec (am : AuthManager) (hreach : Reachable am)
    (username secret : String) :
    ∃ b, am.Authenticate username secret = .done b am ∧
      (b = true ↔ username ≠ "" ∧ secret ≠ "" ∧
        ∃ u, am.users.get username = some u ∧ u.Password = secret) ∧
      (username = "" ∨ secret = "" → b = false) := by
  have hmu : am.mu.writer = false := by rw [(Reachable_AdminKept am hreach).2]; rfl
  rw [AuthManager.Authenticate_eq am username secret hmu]
  by_cases h : username = "" ∨ secret = ""
  · refine ⟨false, by simp only [h, if_true], ?_, fun _ => rfl⟩
    constructor
    · intro hb; cases hb
    · rintro ⟨h₁, h₂, _⟩
      rcases h with h | h
      · exact absurd h h₁
      · exact absurd h h₂
  · have h₁ : username ≠ "" := fun e => h (Or.inl e)
    have h₂ : secret ≠ "" := fun e => h (Or.inr e)
    cases hget : am.users.get username with
    | none =>
      refine ⟨false, by simp only [h, if_false], ?_, fun _ => rfl⟩
      constructor
      · intro hb; cases hb
      · rintro ⟨_, _, u, hu, _⟩
        cases hu
    | some user =>
      refine ⟨decide (user.Password = secret), by simp only [h, if_false], ?_,
        fun h' => absurd h' h⟩
      simp only [decide_eq_true_eq, Option.some.injEq]
      constructor
      · intro hp
        exact ⟨h₁, h₂, user, rfl, hp⟩
      · rintro ⟨_, _, u, hu, hp⟩
        rw [hu]; exact hp

theorem exLoaded_reachable : Reachable exLoaded :=
  Reachable.init "creds.json" ⟨.records [{ Username := "bob", Password := "" }], none⟩
    ⟨.records [{ Username := "admin", Password := "admin" },
               { Username := "bob", Password := "" }], none⟩ exLoaded (by rfl)

/-- C6 fails as stated: in a state reached by loading a record with an empty
secret, a credential is stored for `bob` whose secret equals the secret
given, and `Authenticate` returns false. -/
theorem Authenticate_empty_secret_counterexample :
    Reachable exLoaded ∧
    (∃ u, exLoaded.users.get "bob" = some u ∧ u.Password = "") ∧
    exLoaded.Authenticate "bob" "" = .done false exLoaded ∧
    ¬ (exLoaded.Authenticate "bob" "" = .done true exLoaded ↔
        ∃ u, exLoaded.users.get "bob" = some u ∧ u.Password = "") := by
  have hstored : ∃ u, exLoaded.users.get "bob" = some u ∧ u.Password = "" :=
    ⟨{ Username := "bob", Password := "" }, by decide, rfl⟩
  refine ⟨exLoaded_reachable, hstored, by rfl, ?_⟩
  intro h
  have := h.mpr hstored
  exact absurd this (by decide)

/-- C6 at the loaded state: the administrator signs in. -/
theorem Authenticate_spec_witness :
    Reachable exLoaded ∧
    ∃ b, exLoaded.Authenticate "admin" "admin" = .done b exLoaded ∧
      (b = true ↔ "admin" ≠ "" ∧ "admin" ≠ "" ∧
        ∃ u, exLoaded.users.get "admin" = some u ∧ u.Password = "admin") ∧
      ("admin" = "" ∨ "admin" = "" → b = false) :=
  ⟨exLoaded_reachable, Authenticate_spec exLoaded exLoaded_reachable "admin" "admin"⟩

/-- C7: in every reachable state the credential map holds `admin` with the
secret `admin`, and `Authenticate("admin", "admin")` returns true. -/
theorem admin_always_stored (am : AuthManager) (hreach : Reachable am) :
    am.users.get "admin" = some { Username := "admin", Password := "admin" } ∧
      am.Authenticate "admin" "admin" = .done true am := by
  have hinv := Reachable_AdminKept am hreach
  refine ⟨hinv.1, ?_⟩
  rw [AuthManager.Authenticate_eq am "admin" "admin" (by rw [hinv.2]; rfl), hinv.1]
  rfl

/-- C7 after a store naming `admin` with the secret `hacked` was loaded at
start and loaded again. -/
theorem admin_always_stored_witness :
    Reachable exReloaded ∧
    exReloaded.users.get "admin" = some { Username := "admin", Password := "admin" } ∧
    exReloaded.Authenticate "admin" "admin" = .done true exReloaded :=
  have hreach : Reachable exReloaded :=
    Reachable.load exReloaded exReloaded
      ⟨.records [{ Username := "admin", Password := "hacked" },
                 { Username := "eve", Password := "pw" }], none⟩
      ⟨.records [{ Username := "admin", Password := "hacked" },
                 { Username := "eve", Password := "pw" }], none⟩ none
      (Reachable.init "creds.json"
        ⟨.records [{ Username := "admin", Password := "hacked" },
                   { Username := "eve", Password := "pw" }], none⟩
        ⟨.records [{ Username := "admin", Password := "admin" },
                   { Username := "eve", Password := "pw" }], none⟩ exReloaded (by rfl))
      (by rfl)
  ⟨hreach, admin_always_stored exReloaded hreach⟩

/-! ## Batch deletion -/

namespace FileManager

/-- Once the directory check has passed, `DeleteItems` returns no error,
whatever the names. -/
theorem DeleteItems_no_error {σ : Type} (fm : FileManager) (os : OS σ) (s : σ)
    (username path dir : String) (names : List String)
    (hdir : fm.resolveDir os s username path = .ok dir) :
    (fm.DeleteItems os s username path names).1 = none := by
  simp only [DeleteItems, hdir]

/-- A name whose joined path fails the prefix test of the source, or that
`os.Stat` does not find, is passed over: the rest of the batch is handled
from the same state. -/
theorem deleteNames_skip {σ : Type} (os : OS σ) (userDir dir : String) (s : σ)
    (name : String) (rest : List String)
    (h : HasPrefix (Abs (os.getwd s) (Join [dir, name])) (Abs (os.getwd s) userDir) = false ∨
      ∃ e, os.stat s (Join [dir, name]) = .error e) :
    deleteNames os userDir dir s (name :: rest) = deleteNames os userDir dir s rest := by
  simp only [deleteNames]
  cases hpre : HasPrefix (Abs (os.getwd s) (Join [dir, name])) (Abs (os.getwd s) userDir)
  · simp only [Bool.not_false, if_true]
  · simp only [Bool.not_true, Bool.false_eq_true, if_false]
    rcases h with h | ⟨e, he⟩
    · rw [hpre] at h
      exact absurd h (by simp)
    · rw [he]

end FileManager

/-- C11: user `bob` under `/data/files` deletes, from his root, the name
`../bobby/secret.txt`. The joined path `/data/files/bobby/secret.txt` is
neither the user root nor below it, yet it passes the prefix test, the entry
exists, and `DeleteItems` removes the file of the other user and returns no
error; with the name `../bobby` it removes the whole sibling directory. A
name that leaves `/data/files/bob` without sharing its prefix, and a name
that does not exist, are passed over and the rest of the batch is handled. -/
theorem DeleteItems_removes_sibling_entry :
    (NewFileManager "/data/files").resolveDir memOS exSiblings "bob" "" =
      .ok "/data/files/bob" ∧
    Join ["/data/files/bob", "../bobby/secret.txt"] = "/data/files/bobby/secret.txt" ∧
    isWithin (Abs (some "/") "/data/files/bob")
      (Abs (some "/") "/data/files/bobby/secret.txt") = false ∧
    HasPrefix (Abs (some "/") "/data/files/bobby/secret.txt")
      (Abs (some "/") "/data/files/bob") = true ∧
    memOS.stat exSiblings "/data/files/bobby/secret.txt" = .ok exFile ∧
    (NewFileManager "/data/files").DeleteItems memOS exSiblings "bob" ""
        ["../bobby/secret.txt"] =
      (none, [("/data", exDir), ("/data/files", exDir), ("/data/files/bob", exDir),
              ("/data/files/bobby", exDir)]) ∧
    (NewFileManager "/data/files").DeleteItems memOS exSiblings "bob" "" ["../bobby"] =
      (none, [("/data", exDir), ("/data/files", exDir), ("/data/files/bob", exDir)]) ∧
    (NewFileManager "/data/files").DeleteItems memOS exListing "bob" ""
        ["../../escape", "missing", "b.txt"] =
      (none, [("/data", exDir), ("/data/files", exDir), ("/data/files/bob", exDir),
              ("/data/files/bob/A", exDir)]) := by
  refine ⟨by rfl, by decide, by decide, by decide, by rfl, by rfl, by rfl, by rfl⟩

/-! ## Failed registrations and token validation -/

theorem RWMutex.Unlock_of_Lock (m m₁ : RWMutex) (h : m.Lock = some m₁) : m₁.Unlock = m := by
  unfold RWMutex.Lock at h
  split_ifs at h with hfree
  simp only [Option.some.injEq] at h
  subst h
  cases m
  simp only [RWMutex.Unlock] at hfree ⊢
  simp only [hfree.1]

/-- The error `SaveUsersToFile` returns is none or one of the operating
system. -/
theorem AuthManager.SaveUsersToFile_error (am : AuthManager) (disk : Disk) (err : Option Err)
    (st : AuthManager × Disk) (h : am.SaveUsersToFile disk = .done err st) :
    err = none ∨ ∃ e, err = some (.os e) := by
  unfold AuthManager.SaveUsersToFile at h
  split_ifs at h
  · simp only [Outcome.done.injEq] at h
    exact Or.inl h.1.symm
  · split at h
    · simp at h
    · split at h
      · simp only [Outcome.done.injEq] at h
        exact Or.inr ⟨_, h.1.symm⟩
      · simp only [Outcome.done.injEq] at h
        exact Or.inl h.1.symm

/-- C12: when `CreateUser` returns an error of its own making, the error is
one of the four of its checks and the manager (credential map and token
table) and the persisted store are the ones before the call; and when a
credential is already stored under the name, the state the call leaves has
the same credential map, token table and store. -/
theorem CreateUser_failure_no_effect (am : AuthManager) (disk : Disk)
    (username secret : String) :
    (∀ msg am₁ disk₁,
      am.CreateUser disk username secret = .done (some (.new msg)) (am₁, disk₁) →
        (msg = "username and password are required" ∨
          msg = "cannot create a user with the name 'admin'" ∨
          msg = "username contains invalid characters" ∨
          msg = "user already exists") ∧
        am₁ = am ∧ am₁.users = am.users ∧ am₁.tokens = am.tokens ∧ disk₁ = disk) ∧
    (∀ u, am.users.get username = some u →
      (am.CreateUser disk username secret).state.1.users = am.users ∧
      (am.CreateUser disk username secret).state.1.users.get username = some u ∧
      (am.CreateUser disk username secret).state.1.tokens = am.tokens ∧
      (am.CreateUser disk username secret).state.2 = disk) := by
  constructor
  · intro msg am₁ disk₁ h
    unfold AuthManager.CreateUser at h
    split_ifs at h
    · simp only [Outcome.done.injEq, Option.some.injEq, Err.new.injEq, Prod.mk.injEq] at h
      obtain ⟨hm, ha, hd⟩ := h
      subst ha; subst hd
      exact ⟨Or.inl hm.symm, rfl, rfl, rfl, rfl⟩
    · simp only [Outcome.done.injEq, Option.some.injEq, Err.new.injEq, Prod.mk.injEq] at h
      obtain ⟨hm, ha, hd⟩ := h
      subst ha; subst hd
      exact ⟨Or.inr (Or.inl hm.symm), rfl, rfl, rfl, rfl⟩
    · simp only [Outcome.done.injEq, Option.some.injEq, Err.new.injEq, Prod.mk.injEq] at h
      obtain ⟨hm, ha, hd⟩ := h
      subst ha; subst hd
      exact ⟨Or.inr (Or.inr (Or.inl hm.symm)), rfl, rfl, rfl, rfl⟩
    · split at h
      · simp at h
      · rename_i mu hlock
        split at h
        · simp only [Outcome.done.injEq, Option.some.injEq, Err.new.injEq, Prod.mk.injEq] at h
          obtain ⟨hm, ha, hd⟩ := h
          have hmu := RWMutex.Unlock_of_Lock am.mu mu hlock
          rw [hmu] at ha
          subst ha; subst hd
          exact ⟨Or.inr (Or.inr (Or.inr hm.symm)), rfl, rfl, rfl, rfl⟩
        · simp only at h
          split at h
          · simp at h
          · rename_i err am₂ disk₂ hsave
            simp only [Outcome.done.injEq] at h
            rcases AuthManager.SaveUsersToFile_error _ _ _ _ hsave with he | ⟨e, he⟩
            · rw [he] at h; simp at h
            · rw [he] at h; simp at h
  · intro u hu
    unfold AuthManager.CreateUser
    split_ifs
    · exact ⟨rfl, hu, rfl, rfl⟩
    · exact ⟨rfl, hu, rfl, rfl⟩
    · exact ⟨rfl, hu, rfl, rfl⟩
    · split
      · exact ⟨rfl, hu, rfl, rfl⟩
      · simp only [hu]
        exact ⟨rfl, hu, rfl, rfl⟩

/-- C12 on the loaded manager: a second `bob` is refused with the error for
an existing user, the manager and the store are unchanged, and the secret
stored for `bob` is the one it was. -/
theorem CreateUser_failure_no_effect_witness :
    exLoaded.CreateUser ⟨.missing, none⟩ "bob" "other" =
      .done (some (.new "user already exists")) (exLoaded, ⟨.missing, none⟩) ∧
    exLoaded.users.get "bob" = some { Username := "bob", Password := "" } ∧
    (exLoaded.CreateUser ⟨.missing, none⟩ "bob" "other").state.1.users.get "bob" =
      some { Username := "bob", Password := "" } :=
  ⟨by rfl, by rfl,
    ((CreateUser_failure_no_effect exLoaded ⟨.missing, none⟩ "bob" "other").2
      { Username := "bob", Password := "" } (by rfl)).2.1⟩

/-- C13: with no writer on the mutex, `ValidateToken(v)` returns the error
`invalid token` and leaves the manager as it was when `v` is unknown; returns
the error `token expired` and leaves the table without the entry for `v`,
every other entry kept, when the entry has expired, after which a second
call returns `invalid token`; and otherwise returns the stored token and
leaves the manager as it was. -/
theorem ValidateToken_frame (am : AuthManager) (v : String) (now : Int)
    (hmu : am.mu.writer = false) :
    (am.tokens.get v = none →
      am.ValidateToken now v = .done (.error (.new "invalid token")) am) ∧
    (∀ t, am.tokens.get v = some t → t.ExpiresAt < now →
      am.ValidateToken now v =
        .done (.error (.new "token expired")) { am with tokens := am.tokens.delete v } ∧
      (am.tokens.delete v).get v = none ∧
      (∀ k, k ≠ v → (am.tokens.delete v).get k = am.tokens.get k) ∧
      (∀ now₁, AuthManager.ValidateToken { am with tokens := am.tokens.delete v } now₁ v =
        .done (.error (.new "invalid token")) { am with tokens := am.tokens.delete v })) ∧
    (∀ t, am.tokens.get v = some t → now ≤ t.ExpiresAt →
      am.ValidateToken now v = .done (.ok t) am) := by
  refine ⟨?_, ?_, ?_⟩
  · intro h
    rw [AuthManager.ValidateToken_eq am now v hmu, h]
  · intro t ht hexp
    refine ⟨?_, GoMap.get_delete_self _ _, fun k hk => GoMap.get_delete_ne _ _ _ hk, ?_⟩
    · rw [AuthManager.ValidateToken_eq am now v hmu, ht]
      simp only [hexp, if_true]
    · intro now₁
      rw [AuthManager.ValidateToken_eq { am with tokens := am.tokens.delete v } now₁ v hmu]
      simp only [GoMap.get_delete_self]
  · intro t ht hle
    have : ¬ (t.ExpiresAt < now) := not_lt.mpr hle
    rw [AuthManager.ValidateToken_eq am now v hmu, ht]
    simp only [this, if_false]

/-- C13 on a manager holding the token `tok` of `bob`, expiring at time 100:
at time 100 the token is returned, at time 101 the entry is evicted, and the
next call does not know the token. -/
theorem ValidateToken_frame_witness :
    AuthManager.ValidateToken
        { exManager with tokens := [("tok", { Value := "tok", Username := "bob", ExpiresAt := 100 })] }
        100 "tok" =
      .done (.ok { Value := "tok", Username := "bob", ExpiresAt := 100 })
        { exManager with
          tokens := [("tok", { Value := "tok", Username := "bob", ExpiresAt := 100 })] } ∧
    AuthManager.ValidateToken
        { exManager with tokens := [("tok", { Value := "tok", Username := "bob", ExpiresAt := 100 })] }
        101 "tok" =
      .done (.error (.new "token expired")) exManager ∧
    exManager.ValidateToken 102 "tok" = .done (.error (.new "invalid token")) exManager :=
  ⟨(ValidateToken_frame
      { exManager with tokens := [("tok", { Value := "tok", Username := "bob", ExpiresAt := 100 })] }
      "tok" 100 rfl).2.2 _ (by rfl) (by decide),
    ((ValidateToken_frame
      { exManager with tokens := [("tok", { Value := "tok", Username := "bob", ExpiresAt := 100 })] }
      "tok" 101 rfl).2.1 _ (by rfl) (by decide)).1,
    (ValidateToken_frame exManager "tok" 102 rfl).1 (by rfl)⟩

/-! ## The credentials path and the lock -/

theorem cleanStep_nonempty (rooted : Bool) (out : List (List Char)) (e : List Char)
    (h : ∀ x ∈ out, x ≠ []) : ∀ x ∈ cleanStep rooted out e, x ≠ [] := by
  unfold cleanStep
  by_cases h₁ : e = [] ∨ e = ['.']
  · simp only [h₁, if_true]
    exact h
  · have he : e ≠ [] := fun he => h₁ (Or.inl he)
    by_cases h₂ : e = ['.', '.']
    · subst h₂
      cases out with
      | nil => cases rooted <;> simp
      | cons last rest =>
        simp only [List.mem_cons, forall_eq_or_imp] at h
        by_cases hl : last = ['.', '.']
        · subst hl
          simp
          exact h.2
        · simp [hl]
          exact h.2
    · simp only [h₁, h₂, if_false, List.mem_cons, forall_eq_or_imp]
      exact ⟨he, h⟩

theorem foldl_cleanStep_nonempty (rooted : Bool) (es : List (List Char)) :
    ∀ out : List (List Char), (∀ x ∈ out, x ≠ []) →
      ∀ x ∈ es.foldl (cleanStep rooted) out, x ≠ [] := by
  induction es with
  | nil => intro out h; exact h
  | cons e rest ih =>
    intro out h
    exact ih _ (cleanStep_nonempty rooted out e h)

theorem joinSep_ne_nil (out : List (List Char)) (hne : out ≠ []) (h : ∀ x ∈ out, x ≠ []) :
    joinSep out ≠ [] := by
  match out, hne with
  | [e], _ => exact h e (List.mem_singleton.mpr rfl)
  | e :: e₁ :: es, _ => simp [joinSep]

/-- The function `filepath.Clean` never returns the empty string. -/
theorem cleanChars_ne_nil (path : List Char) : cleanChars path ≠ [] := by
  unfold cleanChars
  by_cases h₁ : path = []
  · simp [h₁]
  · simp only [h₁, if_false]
    split_ifs with h₂ h₃
    · simp
    · simp
    · refine joinSep_ne_nil _ h₃ ?_
      intro x hx
      exact foldl_cleanStep_nonempty _ _ [] (fun _ h => absurd h (List.not_mem_nil _)) x
        (List.mem_reverse.mp hx)

theorem Join_pair_ne_empty (a b : String) (hb : b ≠ "") : Join [a, b] ≠ "" := by
  have hmk : ∀ l : List Char, l ≠ [] → String.mk l ≠ "" := by
    intro l hl he
    exact hl (congrArg String.data he)
  by_cases ha : a = ""
  · simp only [Join, ha, hb, if_true, if_false]
    exact hmk _ (cleanChars_ne_nil _)
  · simp only [Join, ha, if_false]
    exact hmk _ (cleanChars_ne_nil _)

/-- The credentials path `NewAPIHandler` configures is never empty. -/
theorem credsFileOf_ne_empty (dataDir : String) : credsFileOf dataDir ≠ "" :=
  Join_pair_ne_empty _ _ (by decide)

/-- With a credentials path set and the mutex free, `CreateUser` for a
non-empty secret and a valid, unused name other than `admin` stores the
credential, asks for the read lock while holding the write lock, and does
not return. -/
theorem AuthManager.CreateUser_blocked (am : AuthManager) (disk : Disk)
    (username password : String)
    (h₁ : username ≠ "") (h₂ : password ≠ "") (h₃ : username ≠ "admin")
    (h₄ : ∀ c ∈ username.data, IsWordChar c) (hnew : am.users.get username = none)
    (hmu : am.mu = RWMutex.free) (hpath : am.credsFile ≠ "") :
    am.CreateUser disk username password =
      .blocked
        ({ am with
            users := am.users.set username { Username := username, Password := password }
            mu := { writer := true, readers := 0 } },
          disk) := by
  rw [AuthManager.CreateUser_eq am disk username password (by tauto) h₃
    ((all_validChar_iff username).mpr h₄) hmu, hnew]
  simp only [hpath, if_false]

/-- C14: the handler `NewAPIHandler("/srv/data")` returns has a non-empty
credentials path and a free mutex; `CreateUser("carol", "pw")` on its
manager, a valid and unused name, stores the credential, then waits for the
read lock under its own write lock: the call does not return, and the mutex
stays held by a writer. -/
theorem CreateUser_waits_on_own_lock :
    NewAPIHandler "/srv/data" ⟨.missing, none⟩ =
      .done ()
        ({ authManager := exServed, fileManager := NewFileManager "/srv/data/files",
           dataDir := "/srv/data" }, exServedDisk) ∧
    exServed.credsFile ≠ "" ∧
    exServed.mu = RWMutex.free ∧
    exServed.users.get "carol" = none ∧
    exServed.CreateUser exServedDisk "carol" "pw" =
      .blocked
        ({ exServed with
            users := exServed.users.set "carol" { Username := "carol", Password := "pw" }
            mu := { writer := true, readers := 0 } },
          exServedDisk) ∧
    (∀ res st, exServed.CreateUser exServedDisk "carol" "pw" ≠ .done res st) := by
  have hb := AuthManager.CreateUser_blocked exServed exServedDisk "carol" "pw" (by decide)
    (by decide) (by decide) (fun c hc => (validChar_iff c).mp (by revert c; decide)) (by rfl)
    (by rfl) (by decide)
  refine ⟨by rfl, by decide, by rfl, by rfl, hb, ?_⟩
  intro res st hres
  rw [hb] at hres
  exact absurd hres (by simp)

/-! ## Sizes beyond the unit list -/

theorem formatSizeLoop_exp_le (n : Nat) : ∀ div exp, exp ≤ (formatSizeLoop n div exp).2 := by
  induction n using Nat.strong_induction_on with
  | _ n ih =>
    intro div exp
    by_cases h : 1024 ≤ n
    · rw [formatSizeLoop_ge n div exp h]
      exact Nat.le_of_succ_le (ih (n / 1024) (by omega) (div * 1024) (exp + 1))
    · rw [formatSizeLoop_lt n div exp (by omega)]

/-- From `1024^j` up the loop counts at least `j` divisions. -/
theorem formatSizeLoop_exp_ge (j : Nat) :
    ∀ n div exp, 1024 ^ j ≤ n → exp + j ≤ (formatSizeLoop n div exp).2 := by
  induction j with
  | zero => intro n div exp _; exact formatSizeLoop_exp_le n div exp
  | succ j ih =>
    intro n div exp h
    have hpos : 0 < 1024 ^ j := by positivity
    have hn : 1024 ≤ n := by
      have : 1024 ^ (j + 1) = 1024 ^ j * 1024 := pow_succ 1024 j
      nlinarith
    rw [formatSizeLoop_ge n div exp hn]
    have hdiv : 1024 ^ j ≤ n / 1024 := by
      rw [Nat.le_div_iff_mul_le (by norm_num)]
      rw [← pow_succ]
      exact h
    have := ih (n / 1024) (div * 1024) (exp + 1) hdiv
    omega

/-- From one pebibyte up `formatSize` indexes past the unit list. -/
theorem formatSize_panics (n : Nat) (h : 1024 ^ 5 ≤ n) : formatSize (n : Int) = none := by
  have h₁ : ¬ ((n : Int) < 1024) := by
    have : (1024 : Nat) ^ 5 = 1125899906842624 := by norm_num
    omega
  have h₂ : 1024 ^ 4 ≤ n / 1024 := by
    rw [Nat.le_div_iff_mul_le (by norm_num)]
    exact h
  have h₃ := formatSizeLoop_exp_ge 4 (n / 1024) 1024 0 h₂
  simp only [formatSize, h₁, if_false, Int.toNat_ofNat]
  generalize formatSizeLoop (n / 1024) 1024 0 = r at h₃
  obtain ⟨div, exp⟩ := r
  simp only at h₃ ⊢
  have hnone : ["KB", "MB", "GB", "TB"].get? exp = none := by
    rw [List.get?_eq_none]
    simp only [List.length_cons, List.length_nil]
    omega
  simp only [hnone]

/-- C15: at one pebibyte, 1024^5 bytes, a non-negative 64-bit size, the
loop of `formatSize` leaves the index 4, the unit list has the four indices
0 to 3, and the call panics instead of returning a string; so it does at the
largest 64-bit size. -/
theorem formatSize_index_out_of_range :
    (0 : Int) ≤ 1125899906842624 ∧ (1125899906842624 : Int) < 2 ^ 63 ∧
    (formatSizeLoop (1125899906842624 / 1024) 1024 0).2 = 4 ∧
    ["KB", "MB", "GB", "TB"].length = 4 ∧
    ["KB", "MB", "GB", "TB"].get? 4 = none ∧
    formatSize 1125899906842624 = none ∧
    formatSize 9223372036854775807 = none := by
  refine ⟨by norm_num, by norm_num, ?_, rfl, rfl, ?_, ?_⟩
  · rw [formatSizeLoop_ge _ _ _ (by norm_num), formatSizeLoop_ge _ _ _ (by norm_num),
      formatSizeLoop_ge _ _ _ (by norm_num), formatSizeLoop_ge _ _ _ (by norm_num),
      formatSizeLoop_lt _ _ _ (by norm_num)]
  · exact formatSize_panics 1125899906842624 (by norm_num)
  · exact formatSize_panics 9223372036854775807 (by norm_num)

end GoCloud
